import Mathlib

/-!
Verification of the geometric PDF table parser in `backend/parse_food_pdf.py`.

The embedding starts at the span level: `page_spans` yields, per page, a list
of text spans `{t, x0, y0, x1, y1}` (the glyph-to-span builder that produces
them is upstream of every claim checked here).  All coordinates are exact
rationals (`Q` below); the Python source computes over IEEE doubles, but every
operation used by the pipeline (sums, averages, midpoints, comparisons) is
exact on the small decimal inputs considered, so rationals are faithful.

Python-to-Lean conventions used throughout:
* `math.inf` (used as an unresolved lower bound `y1`) becomes `Option Q`
  with `none` standing for infinity;
* Python dicts keyed by category name become association lists with
  replace-on-update semantics (`setKey` / `getKey?`);
* Python's stable `sorted` becomes the stable insertion sort `sSort`;
* `try: int(..) except ValueError` becomes the `Option`-valued `pyInt`;
* the two `ValueError` raises of `parse_pdf` become the `ParseErr` sum type.
-/

set_option maxRecDepth 100000

/-- Exact rational number: integer numerator and positive natural denominator.
Arithmetic goes through `mkQ`, which normalizes sign and divides by the gcd,
so every computed value is in lowest terms and structural equality coincides
with value equality for pipeline outputs. -/
structure Q where
  num : Int
  den : PNat
deriving DecidableEq, Repr

/-- Build a normalized rational from an integer fraction `n / d`.
`d = 0` never occurs in the pipeline (all divisors are positive counts or
literal constants); it is mapped to `0` to keep the function total. -/
def mkQ (n : Int) (d : Int) : Q :=
  if hd : d = 0 then ⟨0, 1⟩
  else
    let n' : Int := if d < 0 then -n else n
    let d' : Nat := d.natAbs
    let g : Nat := Nat.gcd n'.natAbs d'
    have hd' : 0 < d' := Int.natAbs_pos.mpr hd
    have hg : 0 < g := Nat.gcd_pos_of_pos_right _ hd'
    have : 0 < d' / g := Nat.div_pos (Nat.le_of_dvd hd' (Nat.gcd_dvd_right _ _)) hg
    ⟨n' / (g : Int), ⟨d' / g, this⟩⟩

def Q.ofInt (n : Int) : Q := ⟨n, 1⟩

instance (n : Nat) : OfNat Q n := ⟨⟨n, 1⟩⟩

def Q.add (a b : Q) : Q := mkQ (a.num * b.den + b.num * a.den) (a.den.val * b.den.val)

def Q.sub (a b : Q) : Q := mkQ (a.num * b.den - b.num * a.den) (a.den.val * b.den.val)

def Q.mul (a b : Q) : Q := mkQ (a.num * b.num) (a.den.val * b.den.val)

def Q.div (a b : Q) : Q := mkQ (a.num * b.den) (a.den.val * b.num)

def Q.neg (a : Q) : Q := ⟨-a.num, a.den⟩

instance : Add Q := ⟨Q.add⟩
instance : Sub Q := ⟨Q.sub⟩
instance : Mul Q := ⟨Q.mul⟩
instance : Div Q := ⟨Q.div⟩
instance : Neg Q := ⟨Q.neg⟩

/-- Boolean strict comparison by cross-multiplication (denominators are
positive, so this is the usual order on fractions). -/
def Q.blt (a b : Q) : Bool := a.num * b.den < b.num * a.den

/-- Boolean non-strict comparison by cross-multiplication. -/
def Q.ble (a b : Q) : Bool := a.num * b.den ≤ b.num * a.den

instance : LT Q := ⟨fun a b => Q.blt a b = true⟩
instance : LE Q := ⟨fun a b => Q.ble a b = true⟩

instance (a b : Q) : Decidable (a < b) := inferInstanceAs (Decidable (_ = true))

instance (a b : Q) : Decidable (a ≤ b) := inferInstanceAs (Decidable (_ = true))

/-- Python's `min` on two numbers: the first argument wins ties. -/
def qmin (a b : Q) : Q := if a.ble b then a else b

/-- Python's `max` on two numbers: the first argument wins ties. -/
def qmax (a b : Q) : Q := if b.ble a then a else b

/-- Python's `abs`. -/
def qabs (a : Q) : Q := if a.blt 0 then a.neg else a

/-- Python's `sum(...)` over rationals (starts from 0). -/
def qsum (l : List Q) : Q := l.foldl Q.add 0

/-- Minimum of a mapped nonempty list, as in `min(f(s) for s in ln)`.
Returns 0 on `[]`, which never occurs at call sites (lines are nonempty). -/
def qminList (f : α → Q) : List α → Q
  | [] => 0
  | x :: xs => xs.foldl (fun acc y => qmin acc (f y)) (f x)

/-- Maximum of a mapped nonempty list, as in `max(f(s) for s in ln)`. -/
def qmaxList (f : α → Q) : List α → Q
  | [] => 0
  | x :: xs => xs.foldl (fun acc y => qmax acc (f y)) (f x)

/-- Arithmetic mean of a mapped nonempty list (the "running mean" used by all
the clustering loops: `sum(key(x) for x in cluster) / len(cluster)`). -/
def qmean (f : α → Q) (l : List α) : Q := qsum (l.map f) / Q.ofInt l.length

/-- Stable insert: `x` goes in front of the first strictly greater element,
hence after all elements equal to it. -/
def sInsert (lt : α → α → Bool) : List α → α → List α
  | [], x => [x]
  | y :: ys, x => if lt x y then x :: y :: ys else y :: sInsert lt ys x

/-- Stable sort (insertion sort, left fold), matching Python's stable
`sorted` for the strict comparison `lt` derived from a sort key. -/
def sSort (lt : α → α → Bool) (l : List α) : List α :=
  l.foldl (sInsert lt) []

/-- Worker for `argminIdx`: scan `m` further indices starting at `i`,
keeping the earliest index `best` of minimal value. -/
def argminGo (f : Nat → Q) : Nat → Nat → Nat → Nat
  | 0, best, _ => best
  | m + 1, best, i => argminGo f m (if (f i).blt (f best) then i else best) (i + 1)

/-- First index of the minimum of `f` over `0..n-1`, like Python's
`min(range(n), key=f)` (ties resolve to the earliest index). -/
def argminIdx (f : Nat → Q) (n : Nat) : Nat :=
  argminGo f (n - 1) 0 1

/-- Python `str.split()`: split on runs of whitespace, no empty words.
Worker: `cur` holds the current word reversed. -/
def splitWsGo (cur : List Char) : List Char → List (List Char)
  | [] => if cur.isEmpty then [] else [cur.reverse]
  | c :: cs =>
      if c.isWhitespace then
        if cur.isEmpty then splitWsGo [] cs else cur.reverse :: splitWsGo [] cs
      else splitWsGo (c :: cur) cs

/-- Normalization key of `canon_cat`: `" ".join(s.split()).lower()`.
Lowercasing is per ASCII character, which covers every key in `CANON`. -/
def canonKey (s : String) : String :=
  String.mk ((List.intercalate [' '] (splitWsGo [] s.data)).map Char.toLower)

/-- Lookup in an association list, first match wins (Python `dict.get`). -/
def assocFind? (k : String) : List (String × String) → Option String
  | [] => none
  | (k', v) :: rest => if k = k' then some v else assocFind? k rest

def CATEGORY_NAMES : List String :=
  ["Dairy", "Eggs", "Fruits", "Grains", "Legumes", "Meats", "NutsSeeds",
   "Seafood", "Vegetables", "Wheat", "HeavyMetals", "Lectins"]

def CANON : List (String × String) :=
  [("dairy", "Dairy"), ("eggs", "Eggs"), ("fruits", "Fruits"),
   ("grains", "Grains"), ("legumes", "Legumes"), ("meats", "Meats"),
   ("nuts seeds", "NutsSeeds"), ("nuts&seeds", "NutsSeeds"),
   ("nutsseeds", "NutsSeeds"), ("seafood", "Seafood"),
   ("vegetables", "Vegetables"), ("wheat", "Wheat"),
   ("heavy metals", "HeavyMetals"), ("heavymetals", "HeavyMetals"),
   ("lectins", "Lectins")]

/-- Source `canon_cat`: canonicalize via the synonym table, pass through unmapped. -/
def canon_cat (s : String) : String :=
  match assocFind? (canonKey s) CANON with
  | some v => v
  | none => s

def THRESHOLDS : List (Nat × String) :=
  [(90, "high"), (81, "moderate"), (66, "medium"), (0, "low")]

/-- Source `severity`: first threshold at or below the score (scores from the
pipeline are parsed digit strings, hence naturals). -/
def severity (score : Nat) : String :=
  (THRESHOLDS.find? (fun p => p.1 ≤ score)).elim "low" Prod.snd

/-- Source `SCORE_RE = ^\d{1,3}$` (ASCII): one to three digits.  Span texts in this
pipeline are single-line, so the `$`-before-final-newline corner of Python
regexes cannot fire. -/
def scoreRe (s : String) : Bool :=
  decide (1 ≤ s.data.length) && decide (s.data.length ≤ 3) && s.data.all Char.isDigit

/-- Value of a digit string (most significant first). -/
def digitsToNat (l : List Char) : Nat :=
  l.foldl (fun acc c => 10 * acc + (c.toNat - 48)) 0

/-- Python `int(text)` restricted to what score tokens can hold: it succeeds
exactly on nonempty all-digit strings (real `int` also accepts signs and
padding, which `SCORE_RE`-matched texts never contain, so the restriction is
conservative and agrees with the source wherever it is called). -/
def pyInt (s : String) : Option Nat :=
  if s.data.all Char.isDigit && !s.data.isEmpty then some (digitsToNat s.data) else none

/-- Case-insensitive literal match of `w` (given lowercase) against the head
of `l`; returns the rest on success. -/
def matchCI : List Char → List Char → Option (List Char)
  | [], l => some l
  | _ :: _, [] => none
  | w :: ws, c :: cs => if c.toLower = w then matchCI ws cs else none

/-- One-or-more whitespace (`\s+`), returning the rest (maximal munch is
equivalent here because each following literal is a letter). -/
def wsPlus : List Char → Option (List Char)
  | [] => none
  | c :: cs => if c.isWhitespace then some (cs.dropWhile Char.isWhitespace) else none

/-- Source `TOTAL_RE = ^\s*There\s+are\s+Total\s+of` (ignore case), as a prefix
match like `re.match`. -/
def totalRe (s : String) : Bool :=
  ((((matchCI "there".data (s.data.dropWhile Char.isWhitespace)).bind wsPlus).bind
        (matchCI "are".data) |>.bind wsPlus).bind
      (matchCI "total".data) |>.bind wsPlus |>.bind (matchCI "of".data)).isSome

def Y_LINE_TOL : Q := 5
def ROW_Y_TOL : Q := 6
def X_OVERLAP_MIN : Q := 8
def ROW_CLUSTER_TOL : Q := 10
def ROW_PAD_UP : Q := 6
def ROW_PAD_DOWN : Q := 16
def WINDOW_LEFT_PAD : Q := 2
def WINDOW_RIGHT_PAD : Q := 2
def HEADER_VALIDATE_Y_RANGE : Q := 220

/-- A text span as produced by `page_spans`: trimmed text plus bbox.  The
`size` entry of the Python dict is never read downstream and is omitted. -/
structure Span where
  t : String
  x0 : Q
  y0 : Q
  x1 : Q
  y1 : Q
deriving DecidableEq, Repr

/-- A detected category header.  `hid` tags the position in the detected
list so that Python's object identity (`h2 is header` in
`header_has_items`) can be mirrored; every dict object occurs exactly once
in `headers`, so identity is position. -/
structure Header where
  hid : Nat
  name : String
  x0 : Q
  y0 : Q
  y1 : Q
deriving DecidableEq, Repr

/-- A score token found inside a category box (`{"x": xc, "y": ly, "t": t}`). -/
structure ScoreTok where
  x : Q
  y : Q
  t : String
deriving DecidableEq, Repr

/-- A matched "There are Total of" line. -/
structure TotalLine where
  y : Q
  x0 : Q
  x1 : Q
  text : String
deriving DecidableEq, Repr

/-- A category box `(y0, y1, x0, x1)`; `y1 = none` is `math.inf`. -/
structure Box where
  y0 : Q
  y1 : Option Q
  x0 : Q
  x1 : Q
deriving DecidableEq, Repr

/-- Association list with Python-dict update semantics: replace the value at
an existing key in place, else append. -/
def setKey (k : String) (v : β) : List (String × β) → List (String × β)
  | [] => [(k, v)]
  | (k', v') :: rest => if k' = k then (k, v) :: rest else (k', v') :: setKey k v rest

/-- Key lookup (Python `dict[k]` / `dict.get(k)`). -/
def getKey? (k : String) : List (String × β) → Option β
  | [] => none
  | (k', v') :: rest => if k' = k then some v' else getKey? k rest

/-- Python `str.strip()` on a character list. -/
def stripWs (l : List Char) : List Char :=
  ((l.dropWhile Char.isWhitespace).reverse.dropWhile Char.isWhitespace).reverse

/-- Python `str.strip()` on a string. -/
def pyStrip (s : String) : String := String.mk (stripWs s.data)

/-- Does `hay` start with `needle`? -/
def listStartsWith (needle hay : List Char) : Bool :=
  match needle, hay with
  | [], _ => true
  | _ :: _, [] => false
  | a :: as', b :: bs => a == b && listStartsWith as' bs

/-- Python's `needle in hay` substring test. -/
def containsList (needle : List Char) : List Char → Bool
  | [] => needle.isEmpty
  | c :: cs => listStartsWith needle (c :: cs) || containsList needle cs

/-- Python `" ".join(parts)`. -/
def joinSpace (l : List String) : String :=
  String.mk (List.intercalate [' '] (l.map String.data))

/-- Lexicographic strict order on `(y0, x0)` used by `page_spans`. -/
def ltSpanYX (a b : Span) : Bool :=
  a.y0.blt b.y0 || (!(b.y0.blt a.y0) && a.x0.blt b.x0)

/-- The span-level part of `page_spans`: trim each span text, drop empties,
sort by `(y0, x0)`. -/
def page_spans (spans : List Span) : List Span :=
  sSort ltSpanYX (spans.filterMap fun s =>
    let t := pyStrip s.t
    if t.data.isEmpty then none else some ⟨t, s.x0, s.y0, s.x1, s.y1⟩)

/-- The shared running-mean clustering pattern (`cluster_lines`,
`group_headers_into_rows`, `cluster_score_rows` are all instances of it):
an element joins the open cluster when its key is within `tol` of the
cluster's running mean, else the cluster is closed.  The Python code sorts
each cluster (by a second key) exactly when it is closed, and the last one at
the end, so every emitted cluster is sorted: `clusterBy` sorts each cluster
after the grouping, which is equivalent because membership decisions only use
the running mean, an order-independent quantity. -/
def clusterAux (key : α → Q) (tol : Q) (cur : List α) : List α → List (List α)
  | [] => [cur]
  | x :: rest =>
      if (qabs (key x - qmean key cur)).ble tol then clusterAux key tol (cur ++ [x]) rest
      else cur :: clusterAux key tol [x] rest

/-- Running-mean clustering; each emitted cluster stably sorted by `inLt`. -/
def clusterBy (key : α → Q) (tol : Q) (inLt : α → α → Bool) : List α → List (List α)
  | [] => []
  | x :: rest => (clusterAux key tol [x] rest).map (sSort inLt)

/-- Source `cluster_lines`: cluster spans into lines by `y0` within `Y_LINE_TOL` of
the running mean, each line sorted by `x0`. -/
def cluster_lines (spans : List Span) (y_tol : Q) : List (List Span) :=
  clusterBy (fun s => s.y0) y_tol (fun a b => a.x0.blt b.x0) spans

/-- Source `find_total_lines`: lines whose joined text matches `TOTAL_RE`, with
their min-`y0` / min-`x0` / max-`x1`, sorted by `y`. -/
def find_total_lines (lines : List (List Span)) : List TotalLine :=
  sSort (fun a b => a.y.blt b.y) (lines.filterMap fun ln =>
    let txt := joinSpace (ln.map (·.t))
    if totalRe txt then
      some ⟨qminList (·.y0) ln, qminList (·.x0) ln, qmaxList (·.x1) ln, txt⟩
    else none)

/-- Source `detect_headers`: every span canonicalizing into the category allow-list,
sorted by `(y0, x0)`, tagged with its position (`hid`) so object identity in
`header_has_items` can be expressed. -/
def detect_headers (lines : List (List Span)) : List Header :=
  let hs := lines.flatMap fun ln => ln.filterMap fun s =>
    let nm := canon_cat s.t
    if CATEGORY_NAMES.contains nm then some (nm, s) else none
  ((sSort (fun a b =>
      a.2.y0.blt b.2.y0 || (!(b.2.y0.blt a.2.y0) && a.2.x0.blt b.2.x0)) hs).enum).map
    fun p => ⟨p.1, p.2.1, p.2.2.x0, p.2.2.y0, p.2.2.y1⟩

/-- Source `group_headers_into_rows`: running-mean clustering on `y0` within
`ROW_Y_TOL`, each row sorted by `x0`. -/
def group_headers_into_rows (headers : List Header) : List (List Header) :=
  clusterBy (fun h => h.y0) ROW_Y_TOL (fun a b => a.x0.blt b.x0) headers

/-- Midpoints between adjacent headers of an `x0`-sorted row. -/
def rowMids (row : List Header) : List Q :=
  (row.zip row.tail).map fun p => (p.1.x0 + p.2.x0) / 2

/-- Source `build_row_boxes`: one box per header; a solitary header spans the page,
a shared row is split at midpoints between adjacent header `x0`s. -/
def build_row_boxes (rows : List (List Header)) (page_w : Q) : List (String × Box) :=
  rows.foldl (fun boxes row =>
    let y0 := qminList (·.y0) row
    match row with
    | [] => boxes
    | [h] => setKey h.name ⟨y0, none, 0, page_w⟩ boxes
    | _ =>
        let rowS := sSort (fun a b => a.x0.blt b.x0) row
        let mids := rowMids rowS
        (rowS.zip ((0 :: mids).zip (mids ++ [page_w]))).foldl
          (fun bx p => setKey p.1.name ⟨y0, none, p.2.1, p.2.2⟩ bx) boxes) []

/-- Source `find_footer_page_y`: scan lines bottom-up for one whose joined,
stripped, lowered text contains "page"; return that line's "page"-span `y0`
(or the line's min `y0`); fall back to the page height. -/
def find_footer_page_y (lines : List (List Span)) (page_height : Q) : Q :=
  match lines.reverse.find? (fun ln =>
      containsList "page".data ((stripWs (joinSpace (ln.map (·.t))).data).map Char.toLower)) with
  | none => page_height
  | some ln =>
      match ln.find? (fun sp => containsList "page".data (sp.t.data.map Char.toLower)) with
      | some sp => sp.y0
      | none => qminList (·.y0) ln

/-- Source `intersect_x`: length of the overlap of two intervals. -/
def intersect_x (a0 a1 b0 b1 : Q) : Q := qmax 0 (qmin a1 b1 - qmax a0 b0)

/-- The inner scan of `clamp_y1_with_totals`: first total strictly below
`y0` with horizontal overlap at least `X_OVERLAP_MIN`. -/
def firstQualTotal (y0 x0 x1 : Q) : List TotalLine → Option Q
  | [] => none
  | t :: ts =>
      if t.y.ble y0 then firstQualTotal y0 x0 x1 ts
      else if X_OVERLAP_MIN.ble (intersect_x x0 x1 t.x0 t.x1) then some t.y
      else firstQualTotal y0 x0 x1 ts

/-- Source `clamp_y1_with_totals`: rebuild every box, replacing its `y1` by the
first qualifying total line's `y` (or infinity when none qualifies). -/
def clamp_y1_with_totals (cat_boxes : List (String × Box)) (totals : List TotalLine) :
    List (String × Box) :=
  cat_boxes.map fun p =>
    (p.1, ⟨p.2.y0, firstQualTotal p.2.y0 p.2.x0 p.2.x1 totals, p.2.x0, p.2.x1⟩)

/-- Lexicographic strict order on `(y, x)` for score tokens. -/
def ltTokYX (a b : ScoreTok) : Bool :=
  a.y.blt b.y || (!(b.y.blt a.y) && a.x.blt b.x)

/-- Source `find_scores_in_box`: score-shaped spans of lines whose min `y0` lies in
`[y0, y1)` and whose horizontal extent meets `[x0, x1]`, as `(x-center, line
y, text)`, sorted by `(y, x)`. -/
def find_scores_in_box (lines : List (List Span)) (x0 x1 y0 y1 : Q) : List ScoreTok :=
  sSort ltTokYX (lines.flatMap fun ln =>
    let ly := qminList (·.y0) ln
    if y0.ble ly && ly.blt y1 then
      ln.filterMap fun s =>
        if s.x1.blt x0 || x1.blt s.x0 then none
        else if scoreRe s.t then some ⟨(s.x0 + s.x1) / 2, ly, s.t⟩ else none
    else [])

/-- Source `cluster_score_rows`: running-mean clustering of score tokens on `y`,
each row sorted by `x`. -/
def cluster_score_rows (scores : List ScoreTok) (tol : Q) : List (List ScoreTok) :=
  clusterBy (fun s => s.y) tol (fun a b => a.x.blt b.x) scores

/-- Source `build_row_bands`: a padded vertical band per row center, clipped to the
category box. -/
def build_row_bands (row_centers : List Q) (cat_y0 cat_y1 : Q) : List (Q × Q) :=
  (List.range row_centers.length).map fun i =>
    match row_centers.get? i with
    | none => (0, 0)
    | some y =>
        let upper := if i = 0 then cat_y0 else (((row_centers.get? (i - 1)).getD 0) + y) / 2
        let lower :=
          if i = row_centers.length - 1 then cat_y1
          else (y + ((row_centers.get? (i + 1)).getD 0)) / 2
        (qmax cat_y0 (upper - ROW_PAD_UP), qmin cat_y1 (lower + ROW_PAD_DOWN))

/-- One step of `smart_join`'s accumulation: append the next fragment with
the punctuation-aware spacing rules of the source. -/
def smartJoinStep (out nxt : List Char) : List Char :=
  if out.getLast? = some '-' then out ++ nxt.dropWhile Char.isWhitespace
  else if (nxt.head?).elim false (fun c => [')', ',', '.', ':', ';'].contains c) then out ++ nxt
  else if (nxt.head?).elim false (fun c => ['\'', '"'].contains c) then out ++ nxt
  else if (nxt.head?).elim false (fun c => c == ')')
      || (out.getLast?).elim false (fun c => ['(', '/'].contains c) then out ++ nxt
  else out ++ ' ' :: nxt

/-- Python `re.sub(r"\s+\)", ")", ·)`: drop every whitespace run that directly
precedes a closing parenthesis.  Fuel-driven so the recursion is structural;
one unit of fuel is spent per emitted character. -/
def subWsCloseF : Nat → List Char → List Char
  | 0, l => l
  | _ + 1, [] => []
  | fuel + 1, c :: rest =>
      if c.isWhitespace then
        match rest.dropWhile Char.isWhitespace with
        | ')' :: tail => ')' :: subWsCloseF fuel tail
        | _ => c :: subWsCloseF fuel rest
      else c :: subWsCloseF fuel rest

/-- Python `re.sub(r"\(\s+", "(", ·)`: drop every whitespace run that directly
follows an opening parenthesis. -/
def subOpenWsF : Nat → List Char → List Char
  | 0, l => l
  | _ + 1, [] => []
  | fuel + 1, c :: rest =>
      if c == '(' then
        match rest with
        | d :: _ =>
            if d.isWhitespace then '(' :: subOpenWsF fuel (rest.dropWhile Char.isWhitespace)
            else '(' :: subOpenWsF fuel rest
        | [] => ['(']
      else c :: subOpenWsF fuel rest

/-- The bullet/dash characters trimmed by `smart_join`'s final
`.strip(" •·-—")`. -/
def stripSetChars : List Char := [' ', '•', '·', '-', '—']

/-- Trim characters of `stripSetChars` from both ends. -/
def stripBothSet (l : List Char) : List Char :=
  ((l.dropWhile stripSetChars.contains).reverse.dropWhile stripSetChars.contains).reverse

/-- Source `smart_join`: concatenate fragments with punctuation-aware spacing, then
collapse space before `)` / after `(` and trim bullets and dashes. -/
def smart_join (parts : List String) : String :=
  match parts with
  | [] => ""
  | p :: rest =>
      let out := rest.foldl (fun o n => smartJoinStep o n.data) p.data
      let out := subWsCloseF (out.length + 1) out
      let out := subOpenWsF (out.length + 1) out
      String.mk (stripBothSet out)

/-- Source `collect_label_window`: non-score, non-header span texts of the lines
whose min `y0` lies in `[y_top, y_bot)`, restricted to the horizontal window
`[x_left, x_right]`, joined with `smart_join`. -/
def collect_label_window (lines : List (List Span)) (y_top y_bot x_left x_right : Q)
    (expected_set : List String) : String :=
  smart_join (lines.flatMap fun ln =>
    let ly := qminList (·.y0) ln
    if y_top.ble ly && ly.blt y_bot then
      ln.filterMap fun s =>
        if s.x1.blt x_left || x_right.blt s.x0 then none
        else if scoreRe s.t then none
        else if expected_set.contains (canon_cat s.t) then none
        else some s.t
    else [])

/-- Python `int(q)` truncation toward zero of a rational. -/
def pyTrunc (q : Q) : Int := q.num / (q.den : Int)

/-- Source `quantiles`: index into the sorted values at truncated positions
`int(q * (len(vs) - 1))`, clamped into range. -/
def quantiles (values : List Q) (qs : List Q) : List Q :=
  if values.isEmpty then qs.map fun _ => 0
  else
    let vs := sSort Q.blt values
    qs.map fun q =>
      let i := min (max (pyTrunc (q * Q.ofInt ((vs.length : Int) - 1))) 0) ((vs.length : Int) - 1)
      (vs.get? i.toNat).getD 0

/-- Python `statistics.median`: middle of the sorted list, or the mean of the two
middles for even length (0 on `[]`, which raises in Python and is unreachable
at the call sites: clusters and the k-means global fallback are nonempty). -/
def pyMedian (l : List Q) : Q :=
  let s := sSort Q.blt l
  let n := s.length
  if n = 0 then 0
  else if n % 2 = 1 then (s.get? (n / 2)).getD 0
  else (((s.get? (n / 2 - 1)).getD 0) + ((s.get? (n / 2)).getD 0)) / 2

/-- Index of the nearest center (`min(range(k), key=|x - centers[i]|)`,
earliest index on ties) — the assignment rule of `kmeans1d_median`, of
`col_idx` in `decide_order_mode`, and of `_nearest_index`. -/
def nearestIdx (centers : List Q) (x : Q) : Nat :=
  argminIdx (fun i => qabs (x - (centers.get? i).getD 0)) centers.length

/-- One k-means iteration: assign each point to its nearest center, then
take each bucket's median (global median for empty buckets). -/
def kmeansStep (xs_sorted : List Q) (k : Nat) (centers : List Q) : List Q :=
  let buckets := (List.range k).map fun i => xs_sorted.filter fun x => nearestIdx centers x == i
  buckets.map fun b => if b.isEmpty then pyMedian xs_sorted else pyMedian b

/-- The iteration loop of `kmeans1d_median` with early exit once every
center moved less than `0.25`. -/
def kmeansLoop (xs_sorted : List Q) (k : Nat) : Nat → List Q → List Q
  | 0, centers => centers
  | iters + 1, centers =>
      let nc := kmeansStep xs_sorted k centers
      if (centers.zip nc).all (fun p => (qabs (p.2 - p.1)).blt (mkQ 1 4)) then nc
      else kmeansLoop xs_sorted k iters nc

/-- Source `kmeans1d_median`: centers initialized at the `(i + 0.5) / k` quantiles,
iterated with median updates, returned sorted. -/
def kmeans1d_median (xs : List Q) (k : Nat) (iters : Nat) : List Q :=
  if xs.isEmpty then []
  else
    let xs_sorted := sSort Q.blt xs
    if k ≤ 1 then [pyMedian xs_sorted]
    else
      let qs := (List.range k).map fun i => (Q.ofInt i + mkQ 1 2) / Q.ofInt k
      sSort Q.blt (kmeansLoop xs_sorted k iters (quantiles xs_sorted qs))

/-- Source `header_has_items`: validation scan below one header, within its own
half-interval of the row (full page width when it is alone in its row).
`header_row` must contain `header` (guaranteed at both call sites, where it
is the row the header was grouped into); `all_headers` is an argument the
source never reads. -/
def header_has_items (lines : List (List Span)) (header : Header) (page_w : Q)
    (header_row : List Header) (all_headers : List Header) : Bool :=
  let row := sSort (fun a b => a.x0.blt b.x0) header_row
  let xint : Q × Q :=
    if row.length = 1 then (0, page_w)
    else
      let mids := rowMids row
      let hi := row.findIdx fun h => h.hid == header.hid
      (((0 :: mids).get? hi).getD 0, ((mids ++ [page_w]).get? hi).getD 0)
  let y0 := header.y0
  let y1 := y0 + HEADER_VALIDATE_Y_RANGE
  lines.any fun ln =>
    let ly := qminList (·.y0) ln
    y0.ble ly && ly.blt y1 && ln.any fun s =>
      !(s.x1.blt xint.1 || xint.2.blt s.x0) && scoreRe (pyStrip s.t)

/-- The first branch condition of `decide_order_mode`: the 4-center median
k-means assignment populates at least 3 distinct clusters and the mean
absolute deviation of the x-coordinates from their assigned centers is below
`20.0`. -/
def columnCheck (items_xy : List (Q × Q)) : Bool :=
  let xs := items_xy.map (·.1)
  let centers := kmeans1d_median xs 4 25
  let cols := items_xy.map fun p => nearestIdx centers p.1
  let non_empty := cols.dedup.length
  let avg_spread :=
    qsum ((List.range xs.length).map fun i =>
        qabs (((xs.get? i).getD 0) - ((centers.get? ((cols.get? i).getD 0)).getD 0)))
      / Q.ofInt (max 1 xs.length)
  decide (3 ≤ non_empty) && avg_spread.blt 20

/-- Source `decide_order_mode`: empty input and both fall-through branches give
"row"; the k-means column test gives "column4". -/
def decide_order_mode (items_xy : List (Q × Q)) (row_groups : List (List ScoreTok)) : String :=
  if items_xy.isEmpty then "row"
  else if columnCheck items_xy then "column4"
  else if !row_groups.isEmpty
      && (3 : Q).ble (pyMedian (row_groups.map fun g => Q.ofInt g.length)) then "row"
  else "row"

/-- An output item (`{"name": .., "score": .., "severity": ..}`). -/
structure Item where
  name : String
  score : Nat
  severity : String
deriving DecidableEq, Repr

/-- An output category. -/
structure Category where
  name : String
  items : List Item
deriving DecidableEq, Repr

/-- One output page.  `sect` is the `"section"` field of the Python dict
(`section` is a Lean keyword). -/
structure PageObj where
  page : Nat
  sect : String
  categories : List Category
deriving DecidableEq, Repr

/-- One page of parser input: page width, height, and its text spans. -/
structure PageInput where
  width : Q
  height : Q
  spans : List Span
deriving DecidableEq, Repr

/-- The two `ValueError`s of `parse_pdf`: no category anywhere, or required
categories missing (carrying the joined, alphabetically sorted list). -/
inductive ParseErr where
  | noCategories
  | missingRequired (missing : String)
deriving DecidableEq, Repr

/-- A pre-ordering item record (the `tmp` entries of the assembly loop, with
their `_x` / `_ry` ordering keys). -/
structure TmpEntry where
  name : String
  score : Nat
  severity : String
  x : Q
  ry : Q
deriving DecidableEq, Repr

/-- Python `round(·, 2)` (round half to even) on exact rationals. -/
def pyRound2 (q : Q) : Q :=
  let s := q * 100
  let n := Int.fdiv s.num s.den
  let fr := s - Q.ofInt n
  let r :=
    if fr.blt (mkQ 1 2) then n
    else if (mkQ 1 2).blt fr then n + 1
    else if n % 2 = 0 then n else n + 1
  mkQ r 100

/-- Inner loop of the item assembly (one `sc` of an `x`-sorted row group,
with `rest` the tokens after it; the next token bounds the label window).
Tokens whose text fails integer parsing are skipped — the guarded
`int(sc["t"])` of the source. -/
def rowEntriesGo (lines : List (List Span)) (x0 x1 band_top band_bot row_avg : Q) :
    List ScoreTok → List TmpEntry
  | [] => []
  | sc :: rest =>
      let win_l := qmax x0 (sc.x + WINDOW_LEFT_PAD)
      let win_r := match rest.head? with
        | some nxt => qmin x1 (nxt.x - WINDOW_RIGHT_PAD)
        | none => qmin x1 x1
      let label := collect_label_window lines band_top band_bot win_l win_r CATEGORY_NAMES
      let label :=
        if label.data.isEmpty then
          match rest.head? with
          | some nxt =>
              collect_label_window lines band_top band_bot win_l
                (qmin x1 (nxt.x - WINDOW_RIGHT_PAD + 4)) CATEGORY_NAMES
          | none => label
        else label
      match pyInt sc.t with
      | none => rowEntriesGo lines x0 x1 band_top band_bot row_avg rest
      | some v =>
          ⟨label, v, severity v, sc.x, row_avg⟩ ::
            rowEntriesGo lines x0 x1 band_top band_bot row_avg rest

/-- Item assembly for one row group (already sorted by `x`) and its band. -/
def rowEntries (lines : List (List Span)) (x0 x1 band_top band_bot : Q)
    (g : List ScoreTok) : List TmpEntry :=
  rowEntriesGo lines x0 x1 band_top band_bot (qmean (·.y) g) g

/-- The score row groups of one category box (scores found in the box,
clustered into visual rows). -/
def catRowGroups (lines : List (List Span)) (y0 y1 x0 x1 : Q) : List (List ScoreTok) :=
  cluster_score_rows (find_scores_in_box lines x0 x1 y0 y1) ROW_CLUSTER_TOL

/-- Clip the first band's top to just below the category's own header line
(`if bands and hy1 is not None` in the source). -/
def clipFirstBand (bands : List (Q × Q)) (hy1 : Option Q) : List (Q × Q) :=
  match bands, hy1 with
  | b0 :: brest, some h1 => (qmax b0.1 (h1 + 1), b0.2) :: brest
  | b, _ => b

/-- The final bands of one category: bands from the row centers, clipped to
the box and then the first one to below the header. -/
def catBands (lines : List (List Span)) (y0 y1 x0 x1 : Q) (hy1 : Option Q) : List (Q × Q) :=
  let row_centers := (catRowGroups lines y0 y1 x0 x1).map (qmean (·.y))
  clipFirstBand
    ((build_row_bands row_centers y0 y1).map fun p => (qmax p.1 y0, qmin p.2 (y1 - 1))) hy1

/-- The `tmp` list of the per-category assembly loop of `parse_pdf`:
per-row label/score extraction over the row groups and their bands. -/
def catTmp (lines : List (List Span)) (y0 y1 x0 x1 : Q) (hy1 : Option Q) : List TmpEntry :=
  ((catRowGroups lines y0 y1 x0 x1).zip (catBands lines y0 y1 x0 x1 hy1)).flatMap fun p =>
    rowEntries lines x0 x1 p.2.1 p.2.2 (sSort (fun a b => a.x.blt b.x) p.1)

/-- Row-major ordering key: `(ry, x)` lexicographic. -/
def ltRyX (a b : TmpEntry) : Bool :=
  a.ry.blt b.ry || (!(b.ry.blt a.ry) && a.x.blt b.x)

/-- Strict-sorted deduplication, giving Python's `sorted(set(...))` for
normalized rationals. -/
def dedupSorted : List Q → List Q
  | [] => []
  | [x] => [x]
  | x :: y :: rest => if x = y then dedupSorted (y :: rest) else x :: dedupSorted (y :: rest)

/-- The items of one category of `parse_pdf` given its resolved box, header
bottom `hy1`, and the requested order mode ("auto" resolves per category via
`decide_order_mode`; anything except "row" then takes the column4 path). -/
def catItems (lines : List (List Span)) (y0 y1 x0 x1 : Q) (hy1 : Option Q)
    (order_mode : String) : List Item :=
  let tmp := catTmp lines y0 y1 x0 x1 hy1
  if tmp.isEmpty then []
  else
    let mode :=
      if order_mode = "auto" then
        decide_order_mode (tmp.map fun it => (it.x, it.ry)) (catRowGroups lines y0 y1 x0 x1)
      else order_mode
    let ordered :=
      if mode = "row" then sSort ltRyX tmp
      else
        let centers := kmeans1d_median (tmp.map (·.x)) 4 25
        let uniq_rows := dedupSorted (sSort Q.blt (tmp.map fun it => pyRound2 it.ry))
        sSort (fun a b =>
          let ca := nearestIdx centers a.x
          let cb := nearestIdx centers b.x
          decide (ca < cb) || (ca == cb
            && decide (nearestIdx uniq_rows a.ry < nearestIdx uniq_rows b.ry))) tmp
    ordered.map fun it => ⟨it.name, it.score, it.severity⟩

/-- The span-to-lines prefix of the per-page processing. -/
def pageLines (spans : List Span) : List (List Span) :=
  cluster_lines (page_spans spans) Y_LINE_TOL

/-- The validation pass of `parse_pdf`: keep, row by row, the headers with a
score-shaped span in their validation window. -/
def validHeadersOf (lines : List (List Span)) (page_w : Q) : List Header :=
  let headers := detect_headers lines
  (group_headers_into_rows headers).flatMap fun row =>
    row.filter fun h => header_has_items lines h page_w row headers

/-- One step of the y1-resolution loop of `parse_pdf` (lines 732-741): clamp
the named box's `y1` by the next header's `y0` (the next element of the
y-sorted list, with no regard to header rows), then finalize a still
infinite `y1` to the footer height. -/
def resolveY1Step (lines : List (List Span)) (page_h : Q) (h : Header) (nextH : Option Header)
    (boxes : List (String × Box)) : List (String × Box) :=
  match getKey? h.name boxes with
  | none => boxes
  | some bx =>
      let y1a : Option Q := match nextH with
        | some nh => some (match bx.y1 with | none => nh.y0 | some v => qmin v nh.y0)
        | none => bx.y1
      let y1b : Q := match y1a with
        | none => find_footer_page_y lines page_h
        | some v => v
      setKey h.name ⟨bx.y0, some y1b, bx.x0, bx.x1⟩ boxes

/-- The y1-resolution loop over the y-sorted validated headers. -/
def resolveY1Go (lines : List (List Span)) (page_h : Q) :
    List Header → List (String × Box) → List (String × Box)
  | [], boxes => boxes
  | h :: rest, boxes =>
      resolveY1Go lines page_h rest (resolveY1Step lines page_h h rest.head? boxes)

/-- The final per-category boxes of one page: boxes of the validated header
rows, clamped by total lines, then y1-resolved against the y-sorted headers
and the footer. -/
def pageCatBoxes (lines : List (List Span)) (page_w page_h : Q) (valid : List Header) :
    List (String × Box) :=
  let boxes0 := build_row_boxes (group_headers_into_rows valid) page_w
  let boxes1 := clamp_y1_with_totals boxes0 (find_total_lines lines)
  resolveY1Go lines page_h (sSort (fun a b => a.y0.blt b.y0) valid) boxes1

/-- Per-page processing of `parse_pdf` (the body of its page loop): `none`
when the page is skipped (no detected or no validated headers), otherwise
the page object with its ordered categories. -/
def parsePage (inp : PageInput) (pno : Nat) (order_mode : String) : Option PageObj :=
  let lines := pageLines inp.spans
  let headers := detect_headers lines
  if headers.isEmpty then none
  else
    let valid := validHeadersOf lines inp.width
    if valid.isEmpty then none
    else
      let boxesF := pageCatBoxes lines inp.width inp.height valid
      let header_y_map := valid.foldl (fun m h => setKey h.name (h.y0, h.y1) m)
        ([] : List (String × (Q × Q)))
      let headers_by_y := sSort (fun a b => a.y0.blt b.y0) valid
      let sect :=
        if valid.any (fun h => h.name == "HeavyMetals" || h.name == "Lectins") then "Toxins"
        else "Foods"
      some
        { page := pno, sect := sect,
          categories := headers_by_y.map fun h =>
            match getKey? h.name boxesF with
            | none => { name := h.name, items := [] }
            | some bx =>
                let hy1 : Option Q := (getKey? h.name header_y_map).map (·.2)
                { name := h.name,
                  items := catItems lines bx.y0 (bx.y1.getD 0) bx.x0 bx.x1 hy1 order_mode } }

/-- The page loop of `parse_pdf` over 1-based page numbers: collects emitted
pages in order together with the two required-header flags, which accumulate
from the *detected* headers of every processed page (`detect_headers` of an
out-of-range page number is vacuous: the loop bounds make that unreachable). -/
def parsePagesGo (doc : List PageInput) (order_mode : String) :
    List Nat → List PageObj × Bool × Bool
  | [] => ([], false, false)
  | pno :: rest =>
      let acc := parsePagesGo doc order_mode rest
      match doc.get? (pno - 1) with
      | none => acc
      | some inp =>
          let headers := detect_headers (pageLines inp.spans)
          let dD := headers.any fun h => h.name == "Dairy"
          let dE := headers.any fun h => h.name == "Eggs"
          match parsePage inp pno order_mode with
          | some po => (po :: acc.1, dD || acc.2.1, dE || acc.2.2)
          | none => (acc.1, dD || acc.2.1, dE || acc.2.2)

/-- Python `", ".join(l)`. -/
def joinCommaSpace (l : List String) : String :=
  String.mk (List.intercalate [',', ' '] (l.map String.data))

/-- Source `parse_pdf` at the document level: process pages `start_page` to
`min(end_page, len(doc))`, then fail when no page produced categories, or
when a required header name was never detected. -/
def parse_pdf (doc : List PageInput) (start_page end_page : Nat) (order_mode : String) :
    Except ParseErr (List PageObj) :=
  let idxs := List.range' start_page (min end_page doc.length + 1 - start_page)
  let res := parsePagesGo doc order_mode idxs
  if res.1.isEmpty then .error .noCategories
  else
    let missing :=
      (if res.2.1 then [] else ["Dairy"]) ++ (if res.2.2 then [] else ["Eggs"])
    if missing.isEmpty then .ok res.1
    else .error (.missingRequired (joinCommaSpace missing))

/-! Infrastructure lemmas: the stable sort permutes, clustering only
regroups, and `Q`'s boolean comparisons form a linear order. -/

theorem sInsert_perm (lt : α → α → Bool) (l : List α) (x : α) :
    (sInsert lt l x).Perm (x :: l) := by
  induction l with
  | nil => simp [sInsert]
  | cons y ys ih =>
      simp only [sInsert]
      by_cases h : lt x y
      · simp [h]
      · simp only [h, if_neg]
        exact (ih.cons y).trans (List.Perm.swap x y ys)

theorem sSort_aux_perm (lt : α → α → Bool) (l acc : List α) :
    (l.foldl (sInsert lt) acc).Perm (acc ++ l) := by
  induction l generalizing acc with
  | nil => simp
  | cons x xs ih =>
      simp only [List.foldl_cons]
      refine (ih (sInsert lt acc x)).trans ?_
      have h1 : (sInsert lt acc x ++ xs).Perm ((x :: acc) ++ xs) :=
        (sInsert_perm lt acc x).append_right xs
      exact h1.trans List.perm_middle.symm

theorem sSort_perm (lt : α → α → Bool) (l : List α) : (sSort lt l).Perm l := by
  simpa using sSort_aux_perm lt l []

theorem mem_sSort {lt : α → α → Bool} {l : List α} {a : α} :
    a ∈ sSort lt l ↔ a ∈ l := (sSort_perm lt l).mem_iff

theorem length_sSort (lt : α → α → Bool) (l : List α) :
    (sSort lt l).length = l.length := (sSort_perm lt l).length_eq

theorem clusterAux_flatten (key : α → Q) (tol : Q) (cur l : List α) :
    (clusterAux key tol cur l).flatten = cur ++ l := by
  induction l generalizing cur with
  | nil => simp [clusterAux]
  | cons x xs ih =>
      simp only [clusterAux]
      by_cases h : (qabs (key x - qmean key cur)).ble tol
      · simp [h, ih]
      · simp [h, ih]

theorem clusterBy_mem {key : α → Q} {tol : Q} {inLt : α → α → Bool} {l : List α}
    {g : List α} (hg : g ∈ clusterBy key tol inLt l) {a : α} (ha : a ∈ g) : a ∈ l := by
  cases l with
  | nil => simp [clusterBy] at hg
  | cons x xs =>
      simp only [clusterBy, List.mem_map] at hg
      obtain ⟨g', hg', rfl⟩ := hg
      have : a ∈ g' := mem_sSort.mp ha
      have : a ∈ (clusterAux key tol [x] xs).flatten :=
        List.mem_flatten.mpr ⟨g', hg', this⟩
      rw [clusterAux_flatten] at this
      simpa using this

theorem clusterBy_total_length (key : α → Q) (tol : Q) (inLt : α → α → Bool) (l : List α) :
    ((clusterBy key tol inLt l).map List.length).sum = l.length := by
  cases l with
  | nil => simp [clusterBy]
  | cons x xs =>
      simp only [clusterBy, List.map_map]
      have h1 : ((clusterAux key tol [x] xs).map (List.length ∘ sSort inLt))
          = (clusterAux key tol [x] xs).map List.length := by
        apply List.map_congr_left
        intro g _
        simp [Function.comp, length_sSort]
      rw [h1, ← List.length_flatten, clusterAux_flatten]
      simp

theorem Q.den_int_pos (a : Q) : (0 : Int) < ((a.den : Nat) : Int) := by
  exact_mod_cast a.den.pos

theorem Q.ble_iff {a b : Q} : a.ble b = true ↔ a.num * b.den ≤ b.num * a.den := by
  simp [Q.ble]

theorem Q.blt_iff {a b : Q} : a.blt b = true ↔ a.num * b.den < b.num * a.den := by
  simp [Q.blt]

theorem Q.ble_refl (a : Q) : a.ble a = true := by
  simp [Q.ble]

theorem Q.ble_trans {a b c : Q} (h1 : a.ble b = true) (h2 : b.ble c = true) :
    a.ble c = true := by
  rw [Q.ble_iff] at *
  have hb := b.den_int_pos
  have ha := a.den_int_pos
  have hc := c.den_int_pos
  nlinarith [mul_le_mul_of_nonneg_right h1 (le_of_lt hc),
    mul_le_mul_of_nonneg_right h2 (le_of_lt ha)]

theorem Q.ble_of_blt {a b : Q} (h : a.blt b = true) : a.ble b = true := by
  rw [Q.blt_iff] at h
  rw [Q.ble_iff]
  exact le_of_lt h

theorem Q.ble_of_not_blt {a b : Q} (h : b.blt a = false) : a.ble b = true := by
  rw [Q.ble_iff]
  have : ¬ (b.num * a.den < a.num * b.den) := by
    intro hc
    rw [← Q.blt_iff] at hc
    simp [hc] at h
  omega

theorem Q.blt_asymm {a b : Q} (h : a.blt b = true) : b.blt a = false := by
  rw [Q.blt_iff] at h
  by_contra hc
  simp only [Bool.not_eq_false, Q.blt_iff] at hc
  omega

theorem Q.blt_ble_trans {a b c : Q} (h1 : a.blt b = true) (h2 : b.ble c = true) :
    a.blt c = true := by
  rw [Q.blt_iff] at *
  rw [Q.ble_iff] at h2
  have ha := a.den_int_pos
  have hc := c.den_int_pos
  nlinarith [mul_lt_mul_of_pos_right h1 hc, mul_le_mul_of_nonneg_right h2 (le_of_lt ha)]

theorem qmin_ble_left (a b : Q) : (qmin a b).ble a = true := by
  unfold qmin
  by_cases h : a.ble b = true
  · simp [h, Q.ble_refl]
  · simp only [Bool.not_eq_true] at h
    simp only [h, if_neg, Bool.false_eq_true, if_false]
    have : a.blt b = false := by
      by_contra hc
      simp only [Bool.not_eq_false] at hc
      have := Q.ble_of_blt hc
      simp [this] at h
    exact Q.ble_of_not_blt this

theorem qmin_ble_right (a b : Q) : (qmin a b).ble b = true := by
  unfold qmin
  by_cases h : a.ble b = true
  · simp [h]
  · simp only [Bool.not_eq_true] at h
    simp [h, Q.ble_refl]

/-! Concrete scenario inputs used by the claim theorems. -/

/-- Shorthand for a span with integer coordinates `(t, x0, y0, x1, y1)`. -/
def mkSpan (t : String) (a b c d : Int) : Span :=
  ⟨t, Q.ofInt a, Q.ofInt b, Q.ofInt c, Q.ofInt d⟩

/-- Item positions of a clean 4-column, 3-row grid. -/
def gridItemsXY : List (Q × Q) :=
  [(0, 0), (100, 0), (200, 0), (300, 0), (0, 10), (100, 10), (200, 10), (300, 10),
   (0, 20), (100, 20), (200, 20), (300, 20)]

/-- A score token at integer coordinates. -/
def mkTok (x y : Int) : ScoreTok := ⟨Q.ofInt x, Q.ofInt y, "1"⟩

/-- Row groups of the same grid: three rows of four tokens each. -/
def gridRowGroups : List (List ScoreTok) :=
  [[mkTok 0 0, mkTok 100 0, mkTok 200 0, mkTok 300 0],
   [mkTok 0 10, mkTok 100 10, mkTok 200 10, mkTok 300 10],
   [mkTok 0 20, mkTok 100 20, mkTok 200 20, mkTok 300 20]]

/-- C5.  The claim lists `severity(89) = medium`, but the source's
`THRESHOLDS` give every score at or above 81 and below 90 the tier
"moderate": `severity(89)` is `"moderate"`, not `"medium"`. -/
theorem C5_counterexample : severity 89 = "moderate" ∧ "moderate" ≠ "medium" := by decide

/-- C5 (amended).  The boundary values of `severity` are exactly those of
the claim except at 89, which maps to `moderate` (it lies in the `≥ 81`
band): 89→moderate, 90→high, 80→medium, 81→moderate, 65→low, 66→medium. -/
theorem C5_amended :
    severity 89 = "moderate" ∧ severity 90 = "high" ∧ severity 80 = "medium" ∧
    severity 81 = "moderate" ∧ severity 65 = "low" ∧ severity 66 = "medium" := by decide

/-- C6.  A 4-column, 3-row grid whose row groups have median size 4 (which
is at least 3): the claim says the resolver must return row-major
regardless of the k-means column test, but `decide_order_mode` checks the
column test first and returns "column4" here. -/
theorem C6_counterexample :
    decide_order_mode gridItemsXY gridRowGroups = "column4" ∧
    (3 : Q).ble (pyMedian (gridRowGroups.map fun g => Q.ofInt g.length)) = true ∧
    "column4" ≠ "row" := by decide

/-- C6 (amended).  When the clustered row groups have a median of at least
3 items, the resolver picks row-major only if the k-means column test
fails; a passing column test (at least 3 populated clusters, mean deviation
below 20) takes precedence and yields column-major. -/
theorem C6_amended (items_xy : List (Q × Q)) (row_groups : List (List ScoreTok))
    (h1 : row_groups.isEmpty = false)
    (h2 : (3 : Q).ble (pyMedian (row_groups.map fun g => Q.ofInt g.length)) = true) :
    decide_order_mode items_xy row_groups =
      if items_xy.isEmpty then "row"
      else if columnCheck items_xy then "column4" else "row" := by
  unfold decide_order_mode
  by_cases he : items_xy.isEmpty <;> by_cases hc : columnCheck items_xy <;> simp [he, hc]

/-- Witness for `C6_amended` at the concrete grid. -/
theorem C6_amended_witness :
    gridRowGroups.isEmpty = false ∧
    (3 : Q).ble (pyMedian (gridRowGroups.map fun g => Q.ofInt g.length)) = true ∧
    decide_order_mode gridItemsXY gridRowGroups =
      (if gridItemsXY.isEmpty then "row"
       else if columnCheck gridItemsXY then "column4" else "row") :=
  ⟨by decide, by decide, C6_amended gridItemsXY gridRowGroups (by decide) (by decide)⟩

/-- Defined from claim C9's words, to be compared with the source's
`decide_order_mode`: ignore the row groups entirely; return "column4" iff
the 4-center median k-means assignment populates at least 3 distinct
clusters and the mean absolute deviation of the x-coordinates from their
assigned centers is below 20.0, and "row" in every other case. -/
def decideOrderModeSimple (items_xy : List (Q × Q)) : String :=
  let xs := items_xy.map (·.1)
  let centers := kmeans1d_median xs 4 25
  let cols := items_xy.map fun p => nearestIdx centers p.1
  if items_xy.isEmpty then "row"
  else if 3 ≤ cols.dedup.length ∧
      qsum ((List.range xs.length).map fun i =>
          qabs (((xs.get? i).getD 0) - ((centers.get? ((cols.get? i).getD 0)).getD 0)))
        / Q.ofInt (max 1 xs.length) < (20 : Q) then "column4"
  else "row"

/-- An if-chain whose two trailing branches agree collapses to a two-way
if, for any propositional rendering of its boolean condition. -/
theorem ite_bool_prop_collapse (b : Bool) (p : Prop) [Decidable p] (h : b = true ↔ p)
    (c : Bool) (x y : String) :
    (if b = true then x else if c = true then y else y) = if p then x else y := by
  by_cases hb : b = true
  · simp [hb, h.mp hb]
  · have hp : ¬ p := fun hp => hb (h.mpr hp)
    simp [hb, hp, ite_self]

/-- C9.  `decide_order_mode` is extensionally equal to the simple function
that drops the `row_groups` argument: after the column test both remaining
branches return "row", so the median-row-size branch can never change the
result. -/
theorem C9_refinement (items_xy : List (Q × Q)) (row_groups : List (List ScoreTok)) :
    decide_order_mode items_xy row_groups = decideOrderModeSimple items_xy := by
  unfold decide_order_mode decideOrderModeSimple columnCheck
  by_cases he : items_xy.isEmpty = true
  · simp [he]
  · simp only [he, Bool.false_eq_true, if_false]
    refine ite_bool_prop_collapse _ _ ?_ _ _ _
    rw [Bool.and_eq_true, decide_eq_true_eq]
    exact Iff.rfl

/-! Lemmas for the score-token claims. -/

theorem charDigitVal_le {c : Char} (h : c.isDigit = true) : c.toNat - 48 ≤ 9 := by
  unfold Char.isDigit at h
  simp only [Bool.and_eq_true, decide_eq_true_eq] at h
  obtain ⟨h1, h2⟩ := h
  have t1 : (48 : Nat) ≤ c.val.toNat := by exact_mod_cast h1
  have t2 : c.val.toNat ≤ 57 := by exact_mod_cast h2
  simp only [Char.toNat]
  omega

theorem digitsToNat_le_999 {l : List Char} (hd : l.all Char.isDigit = true)
    (hl : l.length ≤ 3) : digitsToNat l ≤ 999 := by
  rcases l with _ | ⟨a, _ | ⟨b, _ | ⟨c, _ | ⟨d, rest⟩⟩⟩⟩
  · simp [digitsToNat]
  · simp only [List.all_cons, Bool.and_eq_true] at hd
    have := charDigitVal_le hd.1
    simp only [digitsToNat, List.foldl_cons, List.foldl_nil]
    omega
  · simp only [List.all_cons, Bool.and_eq_true] at hd
    have h1 := charDigitVal_le hd.1
    have h2 := charDigitVal_le hd.2.1
    simp only [digitsToNat, List.foldl_cons, List.foldl_nil]
    omega
  · simp only [List.all_cons, Bool.and_eq_true] at hd
    have h1 := charDigitVal_le hd.1
    have h2 := charDigitVal_le hd.2.1
    have h3 := charDigitVal_le hd.2.2.1
    simp only [digitsToNat, List.foldl_cons, List.foldl_nil]
    omega
  · simp at hl

theorem scoreRe_elim {s : String} (h : scoreRe s = true) :
    1 ≤ s.data.length ∧ s.data.length ≤ 3 ∧ s.data.all Char.isDigit = true := by
  unfold scoreRe at h
  simp only [Bool.and_eq_true, decide_eq_true_eq] at h
  exact ⟨h.1.1, h.1.2, h.2⟩

theorem scoreRe_pyInt {s : String} (h : scoreRe s = true) :
    pyInt s = some (digitsToNat s.data) ∧ digitsToNat s.data ≤ 999 := by
  obtain ⟨h1, h2, h3⟩ := scoreRe_elim h
  refine ⟨?_, digitsToNat_le_999 h3 h2⟩
  unfold pyInt
  have he : s.data.isEmpty = false := by
    cases hc : s.data with
    | nil => rw [hc] at h1; simp at h1
    | cons a t => simp
  simp [h3, he]

theorem mem_find_scores {lines : List (List Span)} {x0 x1 y0 y1 : Q} {tok : ScoreTok}
    (h : tok ∈ find_scores_in_box lines x0 x1 y0 y1) :
    scoreRe tok.t = true ∧ y0.ble tok.y = true ∧ tok.y.blt y1 = true := by
  unfold find_scores_in_box at h
  rw [mem_sSort, List.mem_flatMap] at h
  obtain ⟨ln, hln, hmem⟩ := h
  simp only at hmem
  by_cases hc : (y0.ble (qminList (fun s => s.y0) ln)
      && (qminList (fun s => s.y0) ln).blt y1) = true
  · rw [if_pos hc] at hmem
    rw [List.mem_filterMap] at hmem
    obtain ⟨s, hs, hf⟩ := hmem
    rw [Bool.and_eq_true] at hc
    by_cases hx : (s.x1.blt x0 || x1.blt s.x0) = true
    · rw [if_pos hx] at hf
      simp at hf
    · rw [if_neg hx] at hf
      by_cases hr : scoreRe s.t = true
      · rw [if_pos hr] at hf
        have := Option.some.inj hf
        subst this
        exact ⟨hr, hc.1, hc.2⟩
      · rw [if_neg hr] at hf
        simp at hf
  · rw [if_neg hc] at hmem
    simp at hmem

theorem rowEntriesGo_length {lines : List (List Span)} {a b c d e : Q} {l : List ScoreTok}
    (h : ∀ sc ∈ l, (pyInt sc.t).isSome = true) :
    (rowEntriesGo lines a b c d e l).length = l.length := by
  induction l with
  | nil => simp [rowEntriesGo]
  | cons sc rest ih =>
      obtain ⟨v, hv⟩ := Option.isSome_iff_exists.mp (h sc (by simp))
      simp only [rowEntriesGo]
      rw [hv]
      simpa using ih fun x hx => h x (by simp [hx])

theorem rowEntriesGo_mem {lines : List (List Span)} {a b c d e : Q} {l : List ScoreTok}
    {it : TmpEntry} (h : it ∈ rowEntriesGo lines a b c d e l) :
    ∃ sc ∈ l, pyInt sc.t = some it.score := by
  induction l with
  | nil => simp [rowEntriesGo] at h
  | cons sc rest ih =>
      simp only [rowEntriesGo] at h
      cases hpy : pyInt sc.t with
      | none =>
          rw [hpy] at h
          obtain ⟨sc', hsc', hq⟩ := ih h
          exact ⟨sc', by simp [hsc'], hq⟩
      | some v =>
          rw [hpy] at h
          rcases List.mem_cons.mp h with h1 | h2
          · subst h1
            exact ⟨sc, by simp, hpy⟩
          · obtain ⟨sc', hsc', hq⟩ := ih h2
            exact ⟨sc', by simp [hsc'], hq⟩

theorem catTmp_mem {lines : List (List Span)} {y0 y1 x0 x1 : Q} {hy1 : Option Q}
    {it : TmpEntry} (h : it ∈ catTmp lines y0 y1 x0 x1 hy1) :
    ∃ tok ∈ find_scores_in_box lines x0 x1 y0 y1, pyInt tok.t = some it.score := by
  unfold catTmp at h
  rw [List.mem_flatMap] at h
  obtain ⟨p, hp, hmem⟩ := h
  unfold rowEntries at hmem
  obtain ⟨sc, hsc, heq⟩ := rowEntriesGo_mem hmem
  have h1 : sc ∈ p.1 := mem_sSort.mp hsc
  have h2 : p.1 ∈ catRowGroups lines y0 y1 x0 x1 := (List.of_mem_zip hp).1
  unfold catRowGroups cluster_score_rows at h2
  exact ⟨sc, clusterBy_mem h2 h1, heq⟩

theorem catItems_mem {lines : List (List Span)} {y0 y1 x0 x1 : Q} {hy1 : Option Q}
    {mode : String} {it : Item} (h : it ∈ catItems lines y0 y1 x0 x1 hy1 mode) :
    ∃ e ∈ catTmp lines y0 y1 x0 x1 hy1, it.score = e.score := by
  unfold catItems at h
  by_cases he : (catTmp lines y0 y1 x0 x1 hy1).isEmpty = true
  · rw [if_pos he] at h
    simp at h
  · rw [if_neg he] at h
    simp only [List.mem_map] at h
    obtain ⟨e, hmem, hproj⟩ := h
    refine ⟨e, ?_, by rw [← hproj]⟩
    split at hmem
    all_goals first
      | exact mem_sSort.mp hmem
      | (split at hmem <;> exact mem_sSort.mp hmem)

theorem build_row_bands_length (cs : List Q) (a b : Q) :
    (build_row_bands cs a b).length = cs.length := by
  simp [build_row_bands]

theorem clipFirstBand_length (bands : List (Q × Q)) (o : Option Q) :
    (clipFirstBand bands o).length = bands.length := by
  unfold clipFirstBand
  rcases bands with _ | ⟨b0, brest⟩ <;> rcases o with _ | h1 <;> simp

theorem catBands_length (lines : List (List Span)) (y0 y1 x0 x1 : Q) (hy1 : Option Q) :
    (catBands lines y0 y1 x0 x1 hy1).length = (catRowGroups lines y0 y1 x0 x1).length := by
  unfold catBands
  rw [clipFirstBand_length]
  simp [build_row_bands_length]

/-- C10.  Every score token collected by `find_scores_in_box` matches the
1-to-3-digit pattern, so its integer conversion succeeds; consequently the
assembly's parse-failure skip is unreachable: the `tmp` list built from a
category box has exactly one entry per collected score token. -/
theorem C10_int_branch_unreachable (lines : List (List Span)) (x0 x1 y0 y1 : Q)
    (hy1 : Option Q) :
    (∀ tok ∈ find_scores_in_box lines x0 x1 y0 y1,
        scoreRe tok.t = true ∧ (pyInt tok.t).isSome = true) ∧
    (catTmp lines y0 y1 x0 x1 hy1).length = (find_scores_in_box lines x0 x1 y0 y1).length := by
  have htok : ∀ tok ∈ find_scores_in_box lines x0 x1 y0 y1,
      scoreRe tok.t = true ∧ (pyInt tok.t).isSome = true := by
    intro tok htok
    have h1 := (mem_find_scores htok).1
    exact ⟨h1, by rw [(scoreRe_pyInt h1).1]; rfl⟩
  refine ⟨htok, ?_⟩
  unfold catTmp
  rw [List.length_flatMap]
  simp only [Function.comp_def]
  have hlen := catBands_length lines y0 y1 x0 x1 hy1
  have hzip : ((catRowGroups lines y0 y1 x0 x1).zip (catBands lines y0 y1 x0 x1 hy1)).map
      (fun p => (rowEntries lines x0 x1 p.2.1 p.2.2 (sSort (fun a b => a.x.blt b.x) p.1)).length)
      = ((catRowGroups lines y0 y1 x0 x1).zip (catBands lines y0 y1 x0 x1 hy1)).map
        (fun p => p.1.length) := by
    apply List.map_congr_left
    intro p hp
    unfold rowEntries
    rw [rowEntriesGo_length, length_sSort]
    intro sc hsc
    have h1 : sc ∈ p.1 := mem_sSort.mp hsc
    have h2 : p.1 ∈ catRowGroups lines y0 y1 x0 x1 := (List.of_mem_zip hp).1
    have h3 : sc ∈ find_scores_in_box lines x0 x1 y0 y1 := by
      unfold catRowGroups cluster_score_rows at h2
      exact clusterBy_mem h2 h1
    exact (htok sc h3).2
  rw [hzip]
  have e1 : ((catRowGroups lines y0 y1 x0 x1).zip (catBands lines y0 y1 x0 x1 hy1)).map
      Prod.fst = catRowGroups lines y0 y1 x0 x1 :=
    List.map_fst_zip _ _ (le_of_eq hlen.symm)
  have e2 : ((catRowGroups lines y0 y1 x0 x1).zip (catBands lines y0 y1 x0 x1 hy1)).map
      (fun p => p.1.length) = (catRowGroups lines y0 y1 x0 x1).map List.length := by
    rw [show (fun (p : List ScoreTok × (Q × Q)) => p.1.length)
        = List.length ∘ Prod.fst from rfl, ← List.map_map, e1]
  rw [e2]
  unfold catRowGroups cluster_score_rows
  exact clusterBy_total_length _ _ _ _

theorem parsePage_items {inp : PageInput} {pno : Nat} {mode : String} {po : PageObj}
    (h : parsePage inp pno mode = some po) {cat : Category} (hc : cat ∈ po.categories)
    {it : Item} (hi : it ∈ cat.items) :
    ∃ lines y0 y1 x0 x1 hy1, it ∈ catItems lines y0 y1 x0 x1 hy1 mode := by
  unfold parsePage at h
  by_cases h1 : (detect_headers (pageLines inp.spans)).isEmpty = true
  · rw [if_pos h1] at h
    simp at h
  · rw [if_neg h1] at h
    by_cases h2 : (validHeadersOf (pageLines inp.spans) inp.width).isEmpty = true
    · rw [if_pos h2] at h
      simp at h
    · rw [if_neg h2] at h
      have hpo := Option.some.inj h
      rw [← hpo] at hc
      simp only [List.mem_map] at hc
      obtain ⟨hh, hhm, hcat⟩ := hc
      cases hk : getKey? hh.name (pageCatBoxes (pageLines inp.spans) inp.width inp.height
          (validHeadersOf (pageLines inp.spans) inp.width)) with
      | none =>
          rw [hk] at hcat
          rw [← hcat] at hi
          simp at hi
      | some bx =>
          rw [hk] at hcat
          rw [← hcat] at hi
          exact ⟨_, _, _, _, _, _, hi⟩

theorem parsePagesGo_mem {doc : List PageInput} {mode : String} {idxs : List Nat}
    {po : PageObj} (h : po ∈ (parsePagesGo doc mode idxs).1) :
    ∃ pno ∈ idxs, ∃ inp, doc.get? (pno - 1) = some inp ∧ parsePage inp pno mode = some po := by
  induction idxs with
  | nil => simp [parsePagesGo] at h
  | cons pno rest ih =>
      simp only [parsePagesGo] at h
      split at h
      · obtain ⟨p, hp, r⟩ := ih h
        exact ⟨p, by simp [hp], r⟩
      · rename_i inp hd
        split at h
        · rename_i po' hpp
          rcases List.mem_cons.mp h with h1 | h2
          · subst h1
            exact ⟨pno, by simp, inp, hd, hpp⟩
          · obtain ⟨p, hp, r⟩ := ih h2
            exact ⟨p, by simp [hp], r⟩
        · obtain ⟨p, hp, r⟩ := ih h
          exact ⟨p, by simp [hp], r⟩

theorem parse_pdf_ok_pages {doc : List PageInput} {s e : Nat} {mode : String}
    {pages : List PageObj} (h : parse_pdf doc s e mode = .ok pages) :
    pages = (parsePagesGo doc mode (List.range' s (min e doc.length + 1 - s))).1 := by
  simp only [parse_pdf] at h
  split at h
  · simp at h
  · repeat' split at h
    all_goals first
      | exact (Except.ok.inj h).symm
      | simp at h

/-- C4 (amended).  Every item score in a successful `parse_pdf` result is at
most 999: the `^\d{1,3}$` token filter bounds parsed scores by three digits.
(The claim's bound of 100 is refuted by `C4_counterexample`.) -/
theorem C4_amended {doc : List PageInput} {s e : Nat} {mode : String}
    {pages : List PageObj} (h : parse_pdf doc s e mode = .ok pages)
    {po : PageObj} (hpo : po ∈ pages) {cat : Category} (hc : cat ∈ po.categories)
    {it : Item} (hi : it ∈ cat.items) : it.score ≤ 999 := by
  rw [parse_pdf_ok_pages h] at hpo
  obtain ⟨pno, _, inp, _, hpp⟩ := parsePagesGo_mem hpo
  obtain ⟨lines, y0, y1, x0, x1, hy1, hmem⟩ := parsePage_items hpp hc hi
  obtain ⟨en, hen, hsc⟩ := catItems_mem hmem
  obtain ⟨tok, htok, hpyi⟩ := catTmp_mem hen
  obtain ⟨hsome, hle⟩ := scoreRe_pyInt (mem_find_scores htok).1
  rw [hsome] at hpyi
  rw [hsc, ← Option.some.inj hpyi]
  exact hle

/-- Decidable equality for `Except`, so concrete `parse_pdf` runs can be
settled with `decide`. -/
instance {ε α : Type _} [DecidableEq ε] [DecidableEq α] : DecidableEq (Except ε α) := fun a b =>
  match a, b with
  | .error e1, .error e2 =>
      if h : e1 = e2 then .isTrue (congrArg Except.error h)
      else .isFalse fun hc => h (Except.error.inj hc)
  | .error _, .ok _ => .isFalse fun hc => Except.noConfusion hc
  | .ok _, .error _ => .isFalse fun hc => Except.noConfusion hc
  | .ok a1, .ok a2 =>
      if h : a1 = a2 then .isTrue (congrArg Except.ok h)
      else .isFalse fun hc => h (Except.ok.inj hc)

/-- Input refuting C4's 0..=100 bound: a well-formed page whose Dairy block
holds the score token "999". -/
def c4spans : List Span :=
  [mkSpan "Dairy" 50 100 90 112, mkSpan "999" 60 150 78 160,
   mkSpan "Eggs" 50 300 85 312, mkSpan "50" 60 350 70 360]

def c4doc : List PageInput := [⟨300, 800, c4spans⟩]

/-- C4.  The parse output of `c4doc` contains an item with score 999, which
exceeds the claimed upper bound of 100: the digit-count bound of `SCORE_RE`
only enforces 999. -/
theorem C4_counterexample :
    parse_pdf c4doc 1 999 "auto" = .ok
      [⟨1, "Foods", [⟨"Dairy", [⟨"", 999, "high"⟩]⟩, ⟨"Eggs", [⟨"", 50, "low"⟩]⟩]⟩] ∧
    ¬ (999 ≤ 100) := by decide

/-- Witness for `C4_amended` at the concrete document `c4doc`. -/
theorem C4_amended_witness : (Item.mk "" 999 "high").score ≤ 999 :=
  @C4_amended c4doc 1 999 "auto"
    [⟨1, "Foods", [⟨"Dairy", [⟨"", 999, "high"⟩]⟩, ⟨"Eggs", [⟨"", 50, "low"⟩]⟩]⟩]
    (by decide)
    ⟨1, "Foods", [⟨"Dairy", [⟨"", 999, "high"⟩]⟩, ⟨"Eggs", [⟨"", 50, "low"⟩]⟩]⟩
    (by decide) ⟨"Dairy", [⟨"", 999, "high"⟩]⟩ (by decide) ⟨"", 999, "high"⟩ (by decide)

/-- C8.  A detected header all of whose same-named detected twins (itself
included) fail the score-window validation is removed by the validation
pass, and the page's output contains no category of that name. -/
theorem C8_header_rejection {spans : List Span} {pageW pageH : Q} {pno : Nat} {mode : String}
    {h : Header} (hdet : h ∈ detect_headers (pageLines spans))
    (hfail : ∀ row ∈ group_headers_into_rows (detect_headers (pageLines spans)),
      ∀ h' ∈ row, h'.name = h.name →
        header_has_items (pageLines spans) h' pageW row (detect_headers (pageLines spans))
          = false) :
    h ∉ validHeadersOf (pageLines spans) pageW ∧
    ∀ po, parsePage ⟨pageW, pageH, spans⟩ pno mode = some po →
      h.name ∉ po.categories.map (·.name) := by
  have hnotin : ∀ h', h' ∈ validHeadersOf (pageLines spans) pageW → h'.name = h.name → False := by
    intro h' hmem hname
    unfold validHeadersOf at hmem
    rw [List.mem_flatMap] at hmem
    obtain ⟨row, hrow, hfilt⟩ := hmem
    rw [List.mem_filter] at hfilt
    have := hfail row hrow h' hfilt.1 hname
    rw [hfilt.2] at this
    exact Bool.true_eq_false.mp this
  refine ⟨fun hmem => hnotin h hmem rfl, ?_⟩
  intro po hpo hnames
  unfold parsePage at hpo
  by_cases h1 : (detect_headers (pageLines ((⟨pageW, pageH, spans⟩ : PageInput)).spans)).isEmpty
      = true
  · rw [if_pos h1] at hpo
    simp at hpo
  · rw [if_neg h1] at hpo
    by_cases h2 : (validHeadersOf (pageLines ((⟨pageW, pageH, spans⟩ : PageInput)).spans)
        ((⟨pageW, pageH, spans⟩ : PageInput)).width).isEmpty = true
    · rw [if_pos h2] at hpo
      simp at hpo
    · rw [if_neg h2] at hpo
      rw [← Option.some.inj hpo] at hnames
      simp only [List.map_map, List.mem_map] at hnames
      obtain ⟨h', hmem', hname'⟩ := hnames
      have hval : h' ∈ validHeadersOf (pageLines spans) pageW := mem_sSort.mp hmem'
      refine hnotin h' hval ?_
      rw [← hname']
      cases hk : getKey? h'.name (pageCatBoxes (pageLines spans) pageW pageH
          (validHeadersOf (pageLines spans) pageW)) with
      | none => simp [Function.comp, hk]
      | some bx => simp [Function.comp, hk]

/-- Page with a "Dairy" header that has no score-shaped span in its
validation window, and a validated "Fruits" header below. -/
def c8spans : List Span :=
  [mkSpan "Dairy" 50 100 90 112, mkSpan "Fruits" 50 400 95 412,
   mkSpan "Apple" 20 450 45 460, mkSpan "77" 60 450 70 460]

/-- Witness for `C8_header_rejection` at `c8spans`: the rejected "Dairy"
header yields no "Dairy" category. -/
theorem C8_header_rejection_witness :
    (⟨0, "Dairy", 50, 100, 112⟩ : Header) ∉ validHeadersOf (pageLines c8spans) 300 ∧
    ∀ po, parsePage ⟨300, 800, c8spans⟩ 1 "auto" = some po →
      "Dairy" ∉ po.categories.map (·.name) :=
  @C8_header_rejection c8spans 300 800 1 "auto" ⟨0, "Dairy", 50, 100, 112⟩
    (by decide) (by decide)

theorem getKey?_setKey_self {β : Type _} (k : String) (v : β) (l : List (String × β)) :
    getKey? k (setKey k v l) = some v := by
  induction l with
  | nil => simp [setKey, getKey?]
  | cons p rest ih =>
      simp only [setKey]
      by_cases h : p.1 = k
      · rw [if_pos h]
        simp [getKey?]
      · rw [if_neg h]
        simp only [getKey?]
        rw [if_neg h]
        exact ih

theorem getKey?_setKey_ne {β : Type _} {k k' : String} (v : β) (l : List (String × β))
    (h : k' ≠ k) : getKey? k (setKey k' v l) = getKey? k l := by
  induction l with
  | nil => simp [setKey, getKey?, h]
  | cons p rest ih =>
      simp only [setKey]
      by_cases hp : p.1 = k'
      · rw [if_pos hp]
        simp only [getKey?]
        rw [if_neg h, if_neg (hp ▸ h)]
      · rw [if_neg hp]
        simp only [getKey?]
        by_cases hk : p.1 = k
        · rw [if_pos hk, if_pos hk]
        · rw [if_neg hk, if_neg hk]
          exact ih

theorem resolveY1Step_other {lines : List (List Span)} {pageH : Q} {h : Header}
    {nextH : Option Header} {boxes : List (String × Box)} {k : String}
    (hne : h.name ≠ k) :
    getKey? k (resolveY1Step lines pageH h nextH boxes) = getKey? k boxes := by
  unfold resolveY1Step
  cases getKey? h.name boxes with
  | none => rfl
  | some bx => exact getKey?_setKey_ne _ _ hne

theorem resolveY1Go_not_mem {lines : List (List Span)} {pageH : Q} {hs : List Header}
    {boxes : List (String × Box)} {k : String} (h : k ∉ hs.map (·.name)) :
    getKey? k (resolveY1Go lines pageH hs boxes) = getKey? k boxes := by
  induction hs generalizing boxes with
  | nil => rfl
  | cons h0 rest ih =>
      simp only [List.map_cons, List.mem_cons, not_or] at h
      simp only [resolveY1Go]
      rw [ih h.2, resolveY1Step_other fun he => h.1 he.symm]

/-- C2 (amended).  For a y-sorted list of validated headers with pairwise
distinct names, the y1-resolution loop sets the named box's bottom to the
`y0` of the *next header in the list* — whether or not it shares a
HeaderRow with the current one — taking the minimum with a finite
totals-clamped `y1` when present; only when no next header exists does an
infinite `y1` fall back to the footer height. -/
theorem C2_amended {lines : List (List Span)} {pageH : Q} {hs : List Header}
    {boxes : List (String × Box)} (hnd : (hs.map (·.name)).Nodup)
    {i : Nat} {h : Header} (hi : hs.get? i = some h) {b : Box}
    (hb : getKey? h.name boxes = some b) :
    getKey? h.name (resolveY1Go lines pageH hs boxes) = some
      ⟨b.y0,
        some (match hs.get? (i + 1) with
          | some nh => match b.y1 with | none => nh.y0 | some v => qmin v nh.y0
          | none => match b.y1 with
            | none => find_footer_page_y lines pageH
            | some v => v),
        b.x0, b.x1⟩ := by
  induction hs generalizing i boxes with
  | nil => simp at hi
  | cons h0 rest ih =>
      simp only [List.map_cons, List.nodup_cons] at hnd
      cases i with
      | zero =>
          have h0eq : h0 = h := by simpa using hi
          subst h0eq
          simp only [resolveY1Go]
          rw [resolveY1Go_not_mem hnd.1]
          unfold resolveY1Step
          rw [hb, getKey?_setKey_self]
          have hhead : rest.get? 0 = rest.head? := by
            cases rest <;> rfl
          simp only [List.get?_cons_succ, hhead]
          cases hh : rest.head? with
          | none => cases b.y1 <;> rfl
          | some nh => cases b.y1 <;> rfl
      | succ j =>
          have hj : rest.get? j = some h := by simpa using hi
          have hname_mem : h.name ∈ rest.map (·.name) :=
            List.mem_map.mpr ⟨h, List.get?_mem hj, rfl⟩
          have hne : h0.name ≠ h.name := fun he => hnd.1 (he ▸ hname_mem)
          simp only [resolveY1Go]
          have hb' : getKey? h.name (resolveY1Step lines pageH h0 rest.head? boxes) = some b := by
            rw [resolveY1Step_other hne]
            exact hb
          have := ih hnd.2 hj hb'
          simpa using this

/-- Same-row clamping input: "Dairy" and "Eggs" share one HeaderRow at
`y0 = 100`, each validated by a score token in its own half-interval; there
are no total lines and no footer line. -/
def c2spans : List Span :=
  [mkSpan "Dairy" 50 100 90 112, mkSpan "Eggs" 150 100 185 112,
   mkSpan "72" 60 130 70 140, mkSpan "88" 200 130 210 140]

/-- C2.  Refutation at `c2spans`: Dairy and Eggs form one HeaderRow (both at
`y0 = 100`), no validated header outside that row exists, no total line
exists, and the footer fallback is the page height 400 — so by the claim
Dairy's box must not be clamped by its same-row neighbor.  Yet its resolved
`y1` is 100, exactly Eggs' `y0`: same-row headers do clamp each other. -/
theorem C2_counterexample :
    (group_headers_into_rows (validHeadersOf (pageLines c2spans) 300)).map (·.map (·.name))
      = [["Dairy", "Eggs"]] ∧
    (validHeadersOf (pageLines c2spans) 300).map (·.y0) = [100, 100] ∧
    find_total_lines (pageLines c2spans) = [] ∧
    find_footer_page_y (pageLines c2spans) 400 = 400 ∧
    (getKey? "Dairy" (pageCatBoxes (pageLines c2spans) 300 400
        (validHeadersOf (pageLines c2spans) 300))).map (·.y1) = some (some 100) ∧
    ((100 : Q) = 400) = False := by decide

/-- Witness for `C2_amended` on a concrete two-header document: the first
box is clamped to the second header's `y0`. -/
theorem C2_amended_witness :
    getKey? "Dairy" (resolveY1Go [] 400
        [⟨0, "Dairy", 0, 10, 22⟩, ⟨1, "Eggs", 0, 50, 62⟩]
        [("Dairy", ⟨10, none, 0, 300⟩), ("Eggs", ⟨50, none, 0, 300⟩)]) = some
      ⟨10, some 50, 0, 300⟩ :=
  @C2_amended [] 400 [⟨0, "Dairy", 0, 10, 22⟩, ⟨1, "Eggs", 0, 50, 62⟩]
    [("Dairy", ⟨10, none, 0, 300⟩), ("Eggs", ⟨50, none, 0, 300⟩)]
    (by decide) 0 ⟨0, "Dairy", 0, 10, 22⟩ (by decide) ⟨10, none, 0, 300⟩ (by decide)

theorem Q.blt_irrefl (a : Q) : a.blt a = false := by
  simp [Q.blt]

theorem sInsert_pairwise_key {k : α → Q} {l : List α} (x : α)
    (hl : l.Pairwise (fun a b => (k a).ble (k b) = true)) :
    (sInsert (fun a b => (k a).blt (k b)) l x).Pairwise
      (fun a b => (k a).ble (k b) = true) := by
  induction l with
  | nil => simp [sInsert]
  | cons y ys ih =>
      rcases List.pairwise_cons.mp hl with ⟨hy, hys⟩
      simp only [sInsert]
      by_cases h : (k x).blt (k y) = true
      · rw [if_pos h]
        refine List.pairwise_cons.mpr ⟨?_, hl⟩
        intro z hz
        rcases List.mem_cons.mp hz with rfl | hz'
        · exact Q.ble_of_blt h
        · exact Q.ble_trans (Q.ble_of_blt h) (hy z hz')
      · rw [if_neg h]
        refine List.pairwise_cons.mpr ⟨?_, ih hys⟩
        intro z hz
        rcases List.mem_cons.mp ((sInsert_perm _ ys x).mem_iff.mp hz) with rfl | hz'
        · exact Q.ble_of_not_blt (by simpa using h)
        · exact hy z hz'

theorem sSort_pairwise_key (k : α → Q) (l : List α) :
    (sSort (fun a b => (k a).blt (k b)) l).Pairwise
      (fun a b => (k a).ble (k b) = true) := by
  unfold sSort
  have haux : ∀ (l' acc : List α),
      acc.Pairwise (fun a b => (k a).ble (k b) = true) →
      (l'.foldl (sInsert (fun a b => (k a).blt (k b))) acc).Pairwise
        (fun a b => (k a).ble (k b) = true) := by
    intro l'
    induction l' with
    | nil => exact fun acc h => h
    | cons x xs ih => exact fun acc h => ih _ (sInsert_pairwise_key x h)
  exact haux l [] (by simp)

theorem firstQualTotal_le {y0 x0 x1 : Q} {totals : List TotalLine}
    (hp : totals.Pairwise (fun a b => a.y.ble b.y = true)) {t : TotalLine}
    (ht : t ∈ totals) (h1 : y0.blt t.y = true)
    (h2 : X_OVERLAP_MIN.ble (intersect_x x0 x1 t.x0 t.x1) = true) :
    ∃ w, firstQualTotal y0 x0 x1 totals = some w ∧ w.ble t.y = true := by
  induction totals with
  | nil => simp at ht
  | cons t0 rest ih =>
      rcases List.pairwise_cons.mp hp with ⟨h0, hrest⟩
      unfold firstQualTotal
      rcases List.mem_cons.mp ht with rfl | hmem
      · have hn : t.y.ble y0 = false := by
          by_contra hc
          simp only [Bool.not_eq_false] at hc
          have := Q.blt_ble_trans h1 hc
          rw [Q.blt_irrefl] at this
          exact Bool.false_ne_true this
        rw [hn]
        simp only [Bool.false_eq_true, if_false, h2, if_true]
        exact ⟨t.y, rfl, Q.ble_refl t.y⟩
      · by_cases hb : t0.y.ble y0 = true
        · rw [hb]
          simp only [if_true]
          exact ih hrest hmem
        · simp only [Bool.not_eq_true] at hb
          rw [hb]
          simp only [Bool.false_eq_true, if_false]
          by_cases hov : X_OVERLAP_MIN.ble (intersect_x x0 x1 t0.x0 t0.x1) = true
          · rw [hov]
            simp only [if_true]
            exact ⟨t0.y, rfl, h0 t hmem⟩
          · simp only [Bool.not_eq_true] at hov
            rw [hov]
            simp only [Bool.false_eq_true, if_false]
            exact ih hrest hmem

theorem getKey?_clamp {boxes : List (String × Box)} {totals : List TotalLine}
    {k : String} {b : Box} (hb : getKey? k boxes = some b) :
    getKey? k (clamp_y1_with_totals boxes totals) =
      some ⟨b.y0, firstQualTotal b.y0 b.x0 b.x1 totals, b.x0, b.x1⟩ := by
  induction boxes with
  | nil => simp [getKey?] at hb
  | cons p rest ih =>
      simp only [clamp_y1_with_totals, List.map_cons] at *
      simp only [getKey?] at hb ⊢
      by_cases hk : p.1 = k
      · rw [if_pos hk] at hb ⊢
        rw [← Option.some.inj hb]
      · rw [if_neg hk] at hb ⊢
        exact ih hb

theorem resolveY1Go_mono {lines : List (List Span)} {pageH : Q} {hs : List Header}
    {boxes : List (String × Box)} {k : String} {y0 w x0 x1 : Q}
    (hb : getKey? k boxes = some ⟨y0, some w, x0, x1⟩) :
    ∃ u, getKey? k (resolveY1Go lines pageH hs boxes) = some ⟨y0, some u, x0, x1⟩ ∧
      u.ble w = true := by
  induction hs generalizing boxes w with
  | nil => exact ⟨w, hb, Q.ble_refl w⟩
  | cons h0 rest ih =>
      simp only [resolveY1Go]
      by_cases hk : h0.name = k
      · subst hk
        unfold resolveY1Step
        rw [hb]
        cases hnh : rest.head? with
        | none =>
            obtain ⟨u, hu, hle⟩ := ih (getKey?_setKey_self h0.name _ boxes)
            exact ⟨u, hu, hle⟩
        | some nh =>
            obtain ⟨u, hu, hle⟩ := ih (getKey?_setKey_self h0.name _ boxes)
            exact ⟨u, hu, Q.ble_trans hle (qmin_ble_left w nh.y0)⟩
      · have hb' : getKey? k (resolveY1Step lines pageH h0 rest.head? boxes)
            = some ⟨y0, some w, x0, x1⟩ := by
          rw [resolveY1Step_other hk]
          exact hb
        exact ih hb'

/-- C7 (amended).  When a total line lies strictly below a category's top
and overlaps it horizontally by at least `X_OVERLAP_MIN`, the category's
resolved lower bound is clamped to *at most* that total line's `y` (exactly
the nearest qualifying total when no validated header interferes first),
and hence every score token collected for the category lies strictly above
the total line. -/
theorem C7_amended {lines : List (List Span)} {pageW pageH : Q} {valid : List Header}
    {name : String} {b : Box} {t : TotalLine}
    (hb : getKey? name (build_row_boxes (group_headers_into_rows valid) pageW) = some b)
    (ht : t ∈ find_total_lines lines) (h1 : b.y0.blt t.y = true)
    (h2 : X_OVERLAP_MIN.ble (intersect_x b.x0 b.x1 t.x0 t.x1) = true) :
    ∃ u, getKey? name (pageCatBoxes lines pageW pageH valid)
        = some ⟨b.y0, some u, b.x0, b.x1⟩ ∧
      u.ble t.y = true ∧
      ∀ tok ∈ find_scores_in_box lines b.x0 b.x1 b.y0 u, tok.y.blt t.y = true := by
  have hsorted : (find_total_lines lines).Pairwise (fun a b => a.y.ble b.y = true) := by
    unfold find_total_lines
    exact sSort_pairwise_key (fun tl : TotalLine => tl.y) _
  obtain ⟨w, hw, hwle⟩ := firstQualTotal_le hsorted ht h1 h2
  have hclamp := @getKey?_clamp _ (find_total_lines lines) _ _ hb
  rw [hw] at hclamp
  unfold pageCatBoxes
  obtain ⟨u, hu, hule⟩ := resolveY1Go_mono hclamp
  refine ⟨u, hu, Q.ble_trans hule hwle, ?_⟩
  intro tok htok
  exact Q.blt_ble_trans (mem_find_scores htok).2.2 (Q.ble_trans hule hwle)

/-- Total-line page: "Dairy" and "Eggs" share a HeaderRow at `y0 = 100`, a
"There are Total of" line spans the page at `y = 200`, and a score token
sits below it at `y = 250`. -/
def c7spans : List Span :=
  [mkSpan "Dairy" 50 100 90 112, mkSpan "Eggs" 150 100 185 112,
   mkSpan "72" 60 130 70 140, mkSpan "88" 200 130 210 140,
   mkSpan "There are Total of 7 items" 10 200 290 212,
   mkSpan "33" 60 250 70 260]

/-- C7.  Refutation of the exact-clamp claim at `c7spans`: the total line at
`y = 200` lies below Dairy's top (100) and overlaps Dairy's horizontal
extent `[0, 100]` by 90 units, and no validated header lies strictly
between 100 and 200 (all validated headers sit at `y0 = 100`) — so the
claim requires Dairy's lower bound to *be* 200.  The resolved bound is 100
instead (the same-row "Eggs" header clamps first). -/
theorem C7_counterexample :
    (find_total_lines (pageLines c7spans)).map (·.y) = [200] ∧
    (validHeadersOf (pageLines c7spans) 300).map (·.y0) = [100, 100] ∧
    (getKey? "Dairy" (build_row_boxes (group_headers_into_rows
        (validHeadersOf (pageLines c7spans) 300)) 300)).map (fun b => (b.y0, b.x0, b.x1))
      = some (100, 0, 100) ∧
    X_OVERLAP_MIN.ble (intersect_x 0 100 10 290) = true ∧
    (getKey? "Dairy" (pageCatBoxes (pageLines c7spans) 300 400
        (validHeadersOf (pageLines c7spans) 300))).map (·.y1) = some (some 100) ∧
    ((some (100 : Q) : Option Q) = some 200) = False := by decide

/-- Witness for `C7_amended`: the "Eggs" category of `c7spans` is clamped to
at most the total line's `y = 200`, and its score tokens all lie above it. -/
theorem C7_amended_witness :
    ∃ u, getKey? "Eggs" (pageCatBoxes (pageLines c7spans) 300 400
        (validHeadersOf (pageLines c7spans) 300)) = some ⟨100, some u, 100, 300⟩ ∧
      u.ble 200 = true ∧
      ∀ tok ∈ find_scores_in_box (pageLines c7spans) 100 300 100 u,
        tok.y.blt 200 = true :=
  @C7_amended (pageLines c7spans) 300 400 (validHeadersOf (pageLines c7spans) 300) "Eggs"
    ⟨100, none, 100, 300⟩ ⟨200, 10, 290, "There are Total of 7 items"⟩
    (by decide) (by decide) (by decide) (by decide)

/-- A page (by 1-based number) of the document whose *detected* headers
include one named `name`. -/
def pageDetected (doc : List PageInput) (pno : Nat) (name : String) : Prop :=
  ∃ inp, doc.get? (pno - 1) = some inp ∧
    ∃ h ∈ detect_headers (pageLines inp.spans), h.name = name

/-- Some processed page detects a header named `name`. -/
def docDetects (doc : List PageInput) (idxs : List Nat) (name : String) : Prop :=
  ∃ pno ∈ idxs, pageDetected doc pno name

theorem parsePagesGo_flag_dairy {doc : List PageInput} {mode : String} {idxs : List Nat} :
    (parsePagesGo doc mode idxs).2.1 = true ↔ docDetects doc idxs "Dairy" := by
  induction idxs with
  | nil => simp [parsePagesGo, docDetects]
  | cons pno rest ih =>
      simp only [parsePagesGo]
      rw [docDetects, List.exists_mem_cons_iff]
      cases hd : doc.get? (pno - 1) with
      | none =>
          simp only [hd]
          rw [ih]
          have hpd : ¬ pageDetected doc pno "Dairy" := by
            rintro ⟨inp, hinp, -⟩
            rw [hd] at hinp
            exact Option.noConfusion hinp
          simp [hpd]
          rfl
      | some inp =>
          simp only [hd]
          have hdet : (detect_headers (pageLines inp.spans)).any
              (fun h => h.name == "Dairy") = true ↔ pageDetected doc pno "Dairy" := by
            rw [List.any_eq_true]
            constructor
            · rintro ⟨h, hm, hb⟩
              exact ⟨inp, hd, h, hm, by simpa using hb⟩
            · rintro ⟨inp', hinp', h, hm, hname⟩
              rw [hd] at hinp'
              have := Option.some.inj hinp'
              subst this
              exact ⟨h, hm, by simpa using hname⟩
          cases hpp : parsePage inp pno mode with
          | some po =>
              simp only [hpp, Bool.or_eq_true]
              rw [ih, hdet]
              rfl
          | none =>
              simp only [hpp, Bool.or_eq_true]
              rw [ih, hdet]
              rfl

theorem parsePagesGo_flag_eggs {doc : List PageInput} {mode : String} {idxs : List Nat} :
    (parsePagesGo doc mode idxs).2.2 = true ↔ docDetects doc idxs "Eggs" := by
  induction idxs with
  | nil => simp [parsePagesGo, docDetects]
  | cons pno rest ih =>
      simp only [parsePagesGo]
      rw [docDetects, List.exists_mem_cons_iff]
      cases hd : doc.get? (pno - 1) with
      | none =>
          simp only [hd]
          rw [ih]
          have hpd : ¬ pageDetected doc pno "Eggs" := by
            rintro ⟨inp, hinp, -⟩
            rw [hd] at hinp
            exact Option.noConfusion hinp
          simp [hpd]
          rfl
      | some inp =>
          simp only [hd]
          have hdet : (detect_headers (pageLines inp.spans)).any
              (fun h => h.name == "Eggs") = true ↔ pageDetected doc pno "Eggs" := by
            rw [List.any_eq_true]
            constructor
            · rintro ⟨h, hm, hb⟩
              exact ⟨inp, hd, h, hm, by simpa using hb⟩
            · rintro ⟨inp', hinp', h, hm, hname⟩
              rw [hd] at hinp'
              have := Option.some.inj hinp'
              subst this
              exact ⟨h, hm, by simpa using hname⟩
          cases hpp : parsePage inp pno mode with
          | some po =>
              simp only [hpp, Bool.or_eq_true]
              rw [ih, hdet]
              rfl
          | none =>
              simp only [hpp, Bool.or_eq_true]
              rw [ih, hdet]
              rfl

theorem parsePagesGo_pages_ne_nil {doc : List PageInput} {mode : String} {idxs : List Nat} :
    (parsePagesGo doc mode idxs).1 ≠ [] ↔
      ∃ pno ∈ idxs, ∃ inp, doc.get? (pno - 1) = some inp ∧
        (parsePage inp pno mode).isSome = true := by
  induction idxs with
  | nil => simp [parsePagesGo]
  | cons pno rest ih =>
      simp only [parsePagesGo]
      rw [List.exists_mem_cons_iff]
      cases hd : doc.get? (pno - 1) with
      | none =>
          simp only [hd]
          rw [ih]
          have : ¬ ∃ inp, doc.get? (pno - 1) = some inp ∧
              (parsePage inp pno mode).isSome = true := by
            rintro ⟨inp, hinp, -⟩
            rw [hd] at hinp
            exact Option.noConfusion hinp
          simp [this]
      | some inp =>
          simp only [hd]
          cases hpp : parsePage inp pno mode with
          | some po =>
              simp only [hpp]
              constructor
              · intro _
                exact Or.inl ⟨inp, rfl, by rw [hpp]; rfl⟩
              · intro _
                simp
          | none =>
              simp only [hpp]
              rw [ih]
              have hno : ¬ ∃ inp', some inp = some inp' ∧
                  (parsePage inp' pno mode).isSome = true := by
                rintro ⟨inp', hinp', hs⟩
                have heq := Option.some.inj hinp'
                subst heq
                rw [hpp] at hs
                simp at hs
              simp only [hno, false_or]

/-- C3 (amended).  `parse_pdf` raises the missing-required-header error
exactly when some processed page produced output (otherwise the
no-categories error fires first) and the set of *detected* header names
across all processed pages misses "Dairy" or "Eggs" — detection alone
counts, whether or not the header survives validation. -/
theorem C3_amended (doc : List PageInput) (s e : Nat) (mode : String) :
    (∃ m, parse_pdf doc s e mode = .error (.missingRequired m)) ↔
      ((∃ pno ∈ List.range' s (min e doc.length + 1 - s), ∃ inp,
          doc.get? (pno - 1) = some inp ∧ (parsePage inp pno mode).isSome = true) ∧
        ¬ (docDetects doc (List.range' s (min e doc.length + 1 - s)) "Dairy" ∧
           docDetects doc (List.range' s (min e doc.length + 1 - s)) "Eggs")) := by
  simp only [parse_pdf]
  by_cases hE : (parsePagesGo doc mode (List.range' s (min e doc.length + 1 - s))).1.isEmpty
      = true
  · rw [if_pos hE]
    have h1 : ¬ ∃ pno ∈ List.range' s (min e doc.length + 1 - s), ∃ inp,
        doc.get? (pno - 1) = some inp ∧ (parsePage inp pno mode).isSome = true := by
      rw [← @parsePagesGo_pages_ne_nil doc mode]
      simp [List.isEmpty_iff.mp hE]
    constructor
    · rintro ⟨m, hm⟩
      exact absurd (Except.error.inj hm) (by simp)
    · rintro ⟨hpages, -⟩
      exact absurd hpages h1
  · rw [if_neg hE]
    by_cases hM : ((if (parsePagesGo doc mode
          (List.range' s (min e doc.length + 1 - s))).2.1 = true then [] else ["Dairy"]) ++
        (if (parsePagesGo doc mode
          (List.range' s (min e doc.length + 1 - s))).2.2 = true then []
         else ["Eggs"])).isEmpty = true
    · rw [if_pos hM]
      have hD : (parsePagesGo doc mode (List.range' s (min e doc.length + 1 - s))).2.1
          = true := by
        by_contra hc
        simp only [Bool.not_eq_true] at hc
        rw [hc] at hM
        simp at hM
      have hEg : (parsePagesGo doc mode (List.range' s (min e doc.length + 1 - s))).2.2
          = true := by
        by_contra hc
        simp only [Bool.not_eq_true] at hc
        rw [hc] at hM
        simp at hM
      constructor
      · rintro ⟨m, hm⟩
        exact Except.noConfusion hm
      · rintro ⟨-, hmiss⟩
        exact absurd ⟨parsePagesGo_flag_dairy.mp hD, parsePagesGo_flag_eggs.mp hEg⟩ hmiss
    · rw [if_neg hM]
      constructor
      · rintro ⟨m, -⟩
        refine ⟨?_, ?_⟩
        · exact parsePagesGo_pages_ne_nil.mp fun h0 => hE (by simp [h0])
        · rintro ⟨hd, he2⟩
          have hD := (@parsePagesGo_flag_dairy doc mode _).mpr hd
          have hEg := (@parsePagesGo_flag_eggs doc mode _).mpr he2
          rw [hD, hEg] at hM
          simp at hM
      · intro _
        exact ⟨_, rfl⟩

/-- A page whose "Dairy" header has no score within its validation window
(so it fails validation) and whose "Eggs" header is validated by the score
"50" below it. -/
def c3spans : List Span :=
  [mkSpan "Dairy" 50 100 90 112, mkSpan "Eggs" 50 400 85 412,
   mkSpan "Yolk" 20 450 45 460, mkSpan "50" 60 450 70 460]

def c3doc : List PageInput := [⟨300, 800, c3spans⟩]

/-- C3.  Refutation: on `c3doc` the validated header set is only
`["Eggs"]` — "Dairy" was detected but failed validation — so by the claim
`parse_pdf` must raise the missing-required-header error.  It returns a
successful result instead: detection alone satisfied the required-header
check. -/
theorem C3_counterexample :
    (detect_headers (pageLines c3spans)).map (·.name) = ["Dairy", "Eggs"] ∧
    (validHeadersOf (pageLines c3spans) 300).map (·.name) = ["Eggs"] ∧
    parse_pdf c3doc 1 999 "auto" = .ok
      [⟨1, "Foods", [⟨"Eggs", [⟨"", 50, "low"⟩]⟩]⟩] := by decide

/-- The end-to-end scenario of the spec, instantiated: "Dairy" at
(50,100)-(90,112) and "Eggs" at (150,100)-(185,112) in one HeaderRow; under
Dairy the score tokens "72" (y 130) and "45" (y 170), each preceded on its
line by the label glyphs "Milk" / "Cheese"; and a score token "88" under
Eggs so that both headers pass validation (as the claim requires). -/
def c1spans : List Span :=
  [mkSpan "Dairy" 50 100 90 112, mkSpan "Eggs" 150 100 185 112,
   mkSpan "Milk" 20 130 45 140, mkSpan "72" 60 130 70 140,
   mkSpan "88" 200 130 210 140,
   mkSpan "Cheese" 20 170 48 180, mkSpan "45" 60 170 70 180]

def c1doc : List PageInput := [⟨300, 400, c1spans⟩]

/-- The categories the claim expects the scenario to produce. -/
def c1claimed : List Category :=
  [⟨"Dairy", [⟨"Milk", 72, "medium"⟩, ⟨"Cheese", 45, "low"⟩]⟩, ⟨"Eggs", []⟩]

/-- The categories the code actually produces on the scenario. -/
def c1actual : List Category :=
  [⟨"Dairy", []⟩, ⟨"Eggs", [⟨"", 88, "moderate"⟩]⟩]

/-- C1.  Refutation: on the scenario input the parser returns Dairy with
*no* items (its box is clamped to its same-row neighbor's `y0 = 100` and
becomes empty) and Eggs with the item `("", 88)`, not the claimed
categories. -/
theorem C1_counterexample :
    parse_pdf c1doc 1 999 "auto" = .ok [⟨1, "Foods", c1actual⟩] ∧
    c1actual ≠ c1claimed := by decide

/-- C1 (amended).  On the scenario input, `parse_pdf` succeeds (the
required-header check passes, since "Dairy" and "Eggs" are both detected
and validated), but the page's categories are `c1actual`: Dairy's box is
clamped by the same-row "Eggs" header to the empty vertical range
`[100, 100)` so Dairy gets no items, Eggs' box holds the token "88" whose
label window (which lies to the *right* of the score) is empty, and the
tokens "72"/"45" with their left-side labels fall in no surviving box. -/
theorem C1_amended :
    parse_pdf c1doc 1 999 "auto" = .ok [⟨1, "Foods", c1actual⟩] := by decide
